import Mathlib

/-!
GraphQL metrics proof of concept

A shallow embedding of `proof-of-concept/graphql-metrics/main.go`.

The Go program declares four metrics, records them from `graphqlHandler`
and `trafficGenerator`, and serves them for scraping.  The accumulators
themselves (counter, histogram, gauge, label-series store, exporter) are
provided by a client library that is not part of the source tree; they are
modelled here from sections 3 and 4 of the specification.  The metric
declarations, the handler and the traffic generator are translated from
`main.go`.

Observed values are exact rationals; random draws and measured durations
are explicit inputs.
-/

namespace GraphqlMetrics

/-! ## Data model (specification, section 3) -/

/-- Modelled from the spec: the three metric kinds of a MetricDefinition. -/
inductive MetricKind
  | Counter
  | Histogram
  | Gauge
  deriving DecidableEq, Repr

/-- Modelled from the spec: the error taxonomy of section 7. -/
inductive MetricError
  | DuplicateNameError
  | UnknownMetricError
  | WrongKindError
  | LabelArityError
  | InvalidDeltaError
  deriving DecidableEq, Repr

/-- Modelled from the spec: a MetricDefinition (name, help text, kind, ordered
label names, histogram bucket boundaries); the client library's option
structs are absent from the source tree. -/
structure MetricDefinition where
  name : String
  help : String
  kind : MetricKind
  labelNames : List String
  bucketBoundaries : List ℚ
  deriving DecidableEq

/-- Modelled from the spec: a SeriesKey is the tuple of label values in
declared order. -/
abbrev SeriesKey := List String

/-- Modelled from the spec: the per-series accumulator.  A histogram keeps one
cumulative count per declared boundary, the implicit +Inf bucket, the running
sum and the running total sample count. -/
inductive Accumulator
  | counter (value : ℚ)
  | histogram (bucketCounts : List ℕ) (infCount : ℕ) (sum : ℚ) (count : ℕ)
  | gauge (value : ℚ)
  deriving DecidableEq

/-- Modelled from the spec: a registered metric, its definition together with
its label-series store (series in order of creation). -/
structure Metric where
  definition : MetricDefinition
  series : List (SeriesKey × Accumulator)
  deriving DecidableEq

/-- Modelled from the spec: the registry of all metrics of the process. -/
abbrev Registry := List Metric

/-! ## Metric Registry (specification, section 4.1) -/

/-- Modelled from the spec: resolve a metric by name. -/
def findMetric : Registry → String → Option Metric
  | [], _ => none
  | m :: rest, name => if m.definition.name = name then some m else findMetric rest name

/-- Modelled from the spec: replace the metric carrying the name of `m` by `m`,
in place. -/
def replaceMetric : Registry → Metric → Registry
  | [], _ => []
  | m0 :: rest, m =>
    if m0.definition.name = m.definition.name then m :: rest
    else m0 :: replaceMetric rest m

/-- Modelled from the spec: `register(definition)`, which fails with
DuplicateNameError when the name is taken and otherwise appends a metric
without series. -/
def register (r : Registry) (d : MetricDefinition) : Except MetricError Registry :=
  match findMetric r d.name with
  | some _ => .error .DuplicateNameError
  | none => .ok (r ++ [{ definition := d, series := [] }])

/-- Modelled from the spec: registration of a list of definitions in order,
stopping at the first failure. -/
def registerAll : Registry → List MetricDefinition → Except MetricError Registry
  | r, [] => .ok r
  | r, d :: ds =>
    match register r d with
    | .error e => .error e
    | .ok r1 => registerAll r1 ds

/-! ## Label-Series Store (specification, section 4.2) -/

/-- Modelled from the spec: the accumulator stored under a series key. -/
def seriesGet : List (SeriesKey × Accumulator) → SeriesKey → Option Accumulator
  | [], _ => none
  | (k0, a0) :: rest, k => if k0 = k then some a0 else seriesGet rest k

/-- Modelled from the spec: store an accumulator under a key, updating the
entry in place when the key exists and appending a new entry otherwise. -/
def seriesPut : List (SeriesKey × Accumulator) → SeriesKey → Accumulator →
    List (SeriesKey × Accumulator)
  | [], k, a => [(k, a)]
  | (k0, a0) :: rest, k, a =>
    if k0 = k then (k, a) :: rest else (k0, a0) :: seriesPut rest k a

/-- Modelled from the spec: the zero-initialised accumulator of a metric. -/
def zeroAccumulator (d : MetricDefinition) : Accumulator :=
  match d.kind with
  | .Counter => .counter 0
  | .Histogram => .histogram (d.bucketBoundaries.map (fun _ => 0)) 0 0 0
  | .Gauge => .gauge 0

/-- Modelled from the spec: `getOrCreate(handle, labelValues)`.  Fails with
LabelArityError when the number of values differs from the number of declared
label names; otherwise returns the existing accumulator, or creates a
zero-initialised one and inserts it. -/
def getOrCreate (m : Metric) (labelValues : SeriesKey) :
    Except MetricError (Accumulator × Metric) :=
  if labelValues.length = m.definition.labelNames.length then
    match seriesGet m.series labelValues with
    | some a => .ok (a, m)
    | none =>
      .ok (zeroAccumulator m.definition,
        { m with series := seriesPut m.series labelValues (zeroAccumulator m.definition) })
  else .error .LabelArityError

/-! ## Recorder (specification, section 4.3) -/

/-- Modelled from the spec: counter update, adding `delta` to the value. -/
def Accumulator.add : Accumulator → ℚ → Accumulator
  | .counter v, delta => .counter (v + delta)
  | a, _ => a

/-- Modelled from the spec: one cumulative bucket per boundary; a sample of
value `v` increments every bucket whose boundary is at least `v`. -/
def bumpBuckets : List ℚ → List ℕ → ℚ → List ℕ
  | b :: bs, c :: cs, v => (if v ≤ b then c + 1 else c) :: bumpBuckets bs cs v
  | _, cs, _ => cs

/-- Modelled from the spec: histogram update, which increments the running
count, adds the value to the running sum, and increments every bucket whose
boundary is at least the value, and the +Inf bucket, by one. -/
def Accumulator.observe (boundaries : List ℚ) : Accumulator → ℚ → Accumulator
  | .histogram cs inf sum count, v =>
    .histogram (bumpBuckets boundaries cs v) (inf + 1) (sum + v) (count + 1)
  | a, _ => a

/-- Modelled from the spec: gauge update, overwriting the stored value. -/
def Accumulator.set : Accumulator → ℚ → Accumulator
  | _, v => .gauge v

/-- Modelled from the spec: write an updated accumulator back into the store of
its metric, in place. -/
def storeSeries (r : Registry) (m : Metric) (labelValues : SeriesKey) (a : Accumulator) :
    Registry :=
  replaceMetric r { m with series := seriesPut m.series labelValues a }

/-- Modelled from the spec: `incrementCounter(name, labelValues, delta)`.  The
result pairs the outcome of the call with the registry after it; a failed call
leaves the registry as it was. -/
def incrementCounter (r : Registry) (name : String) (labelValues : SeriesKey) (delta : ℚ) :
    Except MetricError Unit × Registry :=
  match findMetric r name with
  | none => (.error .UnknownMetricError, r)
  | some m =>
    if m.definition.kind = .Counter then
      match getOrCreate m labelValues with
      | .error e => (.error e, r)
      | .ok (a, m1) =>
        if 0 ≤ delta then (.ok (), storeSeries r m1 labelValues (a.add delta))
        else (.error .InvalidDeltaError, r)
    else (.error .WrongKindError, r)

/-- Modelled from the spec: `observeHistogram(name, labelValues, value)`. -/
def observeHistogram (r : Registry) (name : String) (labelValues : SeriesKey) (value : ℚ) :
    Except MetricError Unit × Registry :=
  match findMetric r name with
  | none => (.error .UnknownMetricError, r)
  | some m =>
    if m.definition.kind = .Histogram then
      match getOrCreate m labelValues with
      | .error e => (.error e, r)
      | .ok (a, m1) =>
        (.ok (), storeSeries r m1 labelValues (a.observe m.definition.bucketBoundaries value))
    else (.error .WrongKindError, r)

/-- Modelled from the spec: `setGauge(name, labelValues, value)`. -/
def setGauge (r : Registry) (name : String) (labelValues : SeriesKey) (value : ℚ) :
    Except MetricError Unit × Registry :=
  match findMetric r name with
  | none => (.error .UnknownMetricError, r)
  | some m =>
    if m.definition.kind = .Gauge then
      match getOrCreate m labelValues with
      | .error e => (.error e, r)
      | .ok (a, m1) => (.ok (), storeSeries r m1 labelValues (a.set value))
    else (.error .WrongKindError, r)

/-- A Recorder call, as data. -/
inductive Call
  | inc (name : String) (labelValues : SeriesKey) (delta : ℚ)
  | observe (name : String) (labelValues : SeriesKey) (value : ℚ)
  | set (name : String) (labelValues : SeriesKey) (value : ℚ)
  deriving DecidableEq

/-- The metric name a call addresses. -/
def Call.name : Call → String
  | .inc n _ _ => n
  | .observe n _ _ => n
  | .set n _ _ => n

/-- The label values a call supplies. -/
def Call.labelValues : Call → SeriesKey
  | .inc _ l _ => l
  | .observe _ l _ => l
  | .set _ l _ => l

/-- Perform one Recorder call. -/
def applyCall (r : Registry) : Call → Except MetricError Unit × Registry
  | .inc n l d => incrementCounter r n l d
  | .observe n l v => observeHistogram r n l v
  | .set n l v => setGauge r n l v

/-- Perform Recorder calls in sequence, as one caller does: the first failing
call aborts the caller and the remaining calls are not made. -/
def runCalls : Registry → List Call → Except MetricError Unit × Registry
  | r, [] => (.ok (), r)
  | r, c :: cs =>
    match applyCall r c with
    | (.error e, r1) => (.error e, r1)
    | (.ok _, r1) => runCalls r1 cs

/-- Perform independent Recorder calls one after another; a failing call is
reported to its own caller and does not stop the others. -/
def execCalls : Registry → List Call → Registry
  | r, [] => r
  | r, c :: cs => execCalls (applyCall r c).2 cs

/-- The accumulator of series `key` of metric `name`, when it exists. -/
def readSeries (r : Registry) (name : String) (key : SeriesKey) : Option Accumulator :=
  match findMetric r name with
  | none => none
  | some m => seriesGet m.series key

/-! ## Exporter (specification, section 4.4) -/

/-- Modelled from the spec: textual form of a rational value. -/
def renderValue (q : ℚ) : String :=
  if q.den = 1 then toString q.num else toString q.num ++ "/" ++ toString q.den

/-- Modelled from the spec: textual form of a metric kind. -/
def renderKind : MetricKind → String
  | .Counter => "counter"
  | .Histogram => "histogram"
  | .Gauge => "gauge"

/-- Modelled from the spec: the label pairs of a series in declared order. -/
def renderPairs : List String → SeriesKey → List String
  | n :: ns, v :: vs => (n ++ "=\x22" ++ v ++ "\x22") :: renderPairs ns vs
  | _, _ => []

/-- Modelled from the spec: the rendered label string of a series. -/
def renderLabels (pairs : List String) : String :=
  if pairs = [] then "" else "\x7b" ++ ",".intercalate pairs ++ "\x7d"

/-- Modelled from the spec: one `_bucket` line per declared boundary, in
boundary order. -/
def renderBuckets (name : String) (pairs : List String) : List ℚ → List ℕ → List String
  | b :: bs, c :: cs =>
    (name ++ "_bucket" ++ renderLabels (pairs ++ ["le=\x22" ++ renderValue b ++ "\x22"])
      ++ " " ++ toString c) :: renderBuckets name pairs bs cs
  | _, _ => []

/-- Modelled from the spec: the data lines of one series. -/
def renderSeries (d : MetricDefinition) (key : SeriesKey) : Accumulator → List String
  | .counter v => [d.name ++ renderLabels (renderPairs d.labelNames key) ++ " " ++ renderValue v]
  | .gauge v => [d.name ++ renderLabels (renderPairs d.labelNames key) ++ " " ++ renderValue v]
  | .histogram cs inf sum count =>
    renderBuckets d.name (renderPairs d.labelNames key) d.bucketBoundaries cs ++
      [d.name ++ "_bucket" ++ renderLabels (renderPairs d.labelNames key ++ ["le=\x22+Inf\x22"])
          ++ " " ++ toString inf,
        d.name ++ "_sum" ++ renderLabels (renderPairs d.labelNames key) ++ " " ++ renderValue sum,
        d.name ++ "_count" ++ renderLabels (renderPairs d.labelNames key) ++ " "
          ++ toString count]

/-- Modelled from the spec: the deterministic order of the series of a metric in
the export, lexicographic by label values in declared order. -/
def orderSeries (series : List (SeriesKey × Accumulator)) : List (SeriesKey × Accumulator) :=
  series.insertionSort (fun a b => a.1 ≤ b.1)

/-- Modelled from the spec: the block of one metric, header first and then the
lines of every observed series in export order.  `series` is the content of the
store of the metric in the order the store hands it out. -/
def renderMetric (d : MetricDefinition) (series : List (SeriesKey × Accumulator)) :
    List String :=
  ["# HELP " ++ d.name ++ " " ++ d.help, "# TYPE " ++ d.name ++ " " ++ renderKind d.kind] ++
    ((orderSeries series).map (fun e => renderSeries d e.1 e.2)).flatten

/-- Modelled from the spec: `snapshot()`, the text of all metrics together with
the registry after the scrape.  The store maps series keys to accumulators and
fixes no order of enumeration; `enumerate` is the order in which this scrape
reads the series of each metric out of its store. -/
def snapshotVia (enumerate : Metric → List (SeriesKey × Accumulator)) (r : Registry) :
    String × Registry :=
  ("\n".intercalate (r.map (fun m => renderMetric m.definition (enumerate m))).flatten, r)

/-- Modelled from the spec: `snapshot()` reading every store in order of series
creation. -/
def snapshot (r : Registry) : String × Registry :=
  snapshotVia (fun m => m.series) r

/-! ## The program: `main.go` -/

/-- Name of the requests counter (main.go, line 20). -/
def requestsName : String := "litmus_graphql_requests_total"

/-- Name of the duration histogram (main.go, line 28). -/
def durationName : String := "litmus_graphql_request_duration_seconds"

/-- Name of the errors counter (main.go, line 37). -/
def errorsName : String := "litmus_graphql_errors_total"

/-- Name of the sessions gauge (main.go, line 45). -/
def sessionsName : String := "litmus_active_sessions"

/-- The counter vector `graphqlRequests` (main.go, lines 18-24). -/
def graphqlRequests : MetricDefinition :=
  { name := requestsName
    help := "Total GraphQL requests by operation and status"
    kind := .Counter
    labelNames := ["operation", "status"]
    bucketBoundaries := [] }

/-- The histogram vector `graphqlDuration` (main.go, lines 26-33), with its
bucket boundaries 0.1, 0.5, 1, 2, 5 as exact rationals. -/
def graphqlDuration : MetricDefinition :=
  { name := durationName
    help := "GraphQL request duration in seconds"
    kind := .Histogram
    labelNames := ["operation"]
    bucketBoundaries := [1 / 10, 1 / 2, 1, 2, 5] }

/-- The counter vector `graphqlErrors` (main.go, lines 35-41). -/
def graphqlErrors : MetricDefinition :=
  { name := errorsName
    help := "Total GraphQL errors by operation"
    kind := .Counter
    labelNames := ["operation", "error_type"]
    bucketBoundaries := [] }

/-- The gauge `activeSessions` (main.go, lines 43-48); it has no labels. -/
def activeSessions : MetricDefinition :=
  { name := sessionsName
    help := "Number of active user sessions"
    kind := .Gauge
    labelNames := []
    bucketBoundaries := [] }

/-- The metrics of the `var` block, in declaration order. -/
def declaredMetrics : List MetricDefinition :=
  [graphqlRequests, graphqlDuration, graphqlErrors, activeSessions]

/-- The registry at process start: every declared metric, no series yet. -/
def initialState : Registry :=
  declaredMetrics.map (fun d => { definition := d, series := [] })

/-- The list `operations` (main.go, lines 52-58). -/
def operations : List String :=
  ["listChaosEngines", "getChaosEngine", "createChaosEngine", "listWorkflows", "getWorkflow"]

/-- The values one request draws from its environment: the simulated
processing time `rand.Intn(500)` in milliseconds, the draw `rand.Float32()`,
and the measured `time.Since(start).Seconds()`. -/
structure Draws where
  sleepMs : ℕ
  roll : ℚ
  elapsed : ℚ
  deriving DecidableEq

/-- The call `r.URL.Query().Get("operation")`: the parameter value, or the
empty string when the parameter is absent. -/
def queryGet (query : Option String) : String :=
  query.getD ""

/-- The operation label of a request (main.go, lines 62-65). -/
def operationLabel (query : Option String) : String :=
  if queryGet query = "" then "unknown" else queryGet query

/-- What the handler writes back. -/
inductive Response
  | internalServerError
  | success (operation : String)
  deriving DecidableEq

/-- The Recorder calls `graphqlHandler` makes, in order (main.go, lines 73-89):
the error path when the draw is below 0.1, the success path otherwise. -/
def handlerCalls (query : Option String) (d : Draws) : List Call :=
  if d.roll < 1 / 10 then
    [.observe durationName [operationLabel query] d.elapsed,
      .inc requestsName [operationLabel query, "error"] 1,
      .inc errorsName [operationLabel query, "internal_error"] 1]
  else
    [.observe durationName [operationLabel query] d.elapsed,
      .inc requestsName [operationLabel query, "success"] 1]

/-- The handler `graphqlHandler` (main.go, lines 61-98).  A failing label
lookup panics in the Go code; it is the error result here. -/
def graphqlHandler (s : Registry) (query : Option String) (d : Draws) :
    Except MetricError Response × Registry :=
  match runCalls s (handlerCalls query d) with
  | (.error e, s1) => (.error e, s1)
  | (.ok _, s1) =>
    if d.roll < 1 / 10 then (.ok .internalServerError, s1)
    else (.ok (.success (operationLabel query)), s1)

/-- A sequence of handled requests, one after another. -/
def handleAll : Registry → List (Option String × Draws) → Registry
  | s, [] => s
  | s, (q, d) :: rest => handleAll (graphqlHandler s q d).2 rest

/-- The values one tick of `trafficGenerator` draws: `pick` is
`rand.Intn(len(operations))`, `request` holds the draws of the handler when the
synthetic request reached it (and is absent when `http.Get` failed), and
`sessions` is `rand.Intn(40)`. -/
structure Tick where
  pick : Fin operations.length
  request : Option Draws
  sessions : ℕ

/-- One tick of `trafficGenerator`, the body of its loop (main.go, lines
165-170): the synthetic request for a drawn operation, then the write of the
gauge. -/
def trafficTick (s : Registry) (t : Tick) : Except MetricError Unit × Registry :=
  let s1 :=
    match t.request with
    | none => s
    | some d => (graphqlHandler s (some (operations.get t.pick)) d).2
  setGauge s1 sessionsName [] ((10 + t.sessions : ℕ) : ℚ)

/-- The loop of `trafficGenerator` (main.go, lines 162-172), run for the ticks
given. -/
def trafficGenerator : Registry → List Tick → Registry
  | s, [] => s
  | s, t :: ts => trafficGenerator (trafficTick s t).2 ts

/-! ## Definitions used in the statements -/

/-- The definition registered under a name. -/
def defOf (r : Registry) (name : String) : Option MetricDefinition :=
  (findMetric r name).map (fun m => m.definition)

/-- The accumulator a Recorder call starts from: the stored one, or the
zero-initialised one of the metric. -/
def currentOf (m : Metric) (k : SeriesKey) : Accumulator :=
  (seriesGet m.series k).getD (zeroAccumulator m.definition)

/-- The kind of metric a Recorder call is for. -/
def Call.kind : Call → MetricKind
  | .inc _ _ _ => .Counter
  | .observe _ _ _ => .Histogram
  | .set _ _ _ => .Gauge

/-- The accumulator update a Recorder call performs. -/
def Call.effect (c : Call) (d : MetricDefinition) (a : Accumulator) : Accumulator :=
  match c with
  | .inc _ _ delta => a.add delta
  | .observe _ _ v => a.observe d.bucketBoundaries v
  | .set _ _ v => a.set v

/-- The histogram accumulator that has seen exactly the samples `vs`. -/
def histOf (boundaries : List ℚ) (vs : List ℚ) : Accumulator :=
  .histogram (boundaries.map (fun b => vs.countP (fun v => decide (v ≤ b))))
    vs.length vs.sum vs.length

/-- The calls observing the values `vs`, in order, on one series of the
duration histogram. -/
def observeAll (key : SeriesKey) (vs : List ℚ) : List Call :=
  vs.map (fun v => Call.observe durationName key v)

/-- Every series of the duration histogram holds the accumulator of some list
of samples, and the definition of the histogram is the declared one. -/
def DurationInv (r : Registry) : Prop :=
  defOf r durationName = some graphqlDuration ∧
    ∀ key acc, readSeries r durationName key = some acc →
      ∃ vs, acc = histOf graphqlDuration.bucketBoundaries vs

/-- The argument check of a Recorder call: a counter delta is not negative. -/
def Call.valid : Call → Prop
  | .inc _ _ delta => 0 ≤ delta
  | _ => True

/-- The three metrics the handler records are registered as declared. -/
def Declared (s : Registry) : Prop :=
  defOf s requestsName = some graphqlRequests ∧
    defOf s durationName = some graphqlDuration ∧
    defOf s errorsName = some graphqlErrors ∧
    defOf s sessionsName = some activeSessions

/-- The kind of metric an accumulator belongs to. -/
def Accumulator.kind : Accumulator → MetricKind
  | .counter _ => .Counter
  | .histogram _ _ _ _ => .Histogram
  | .gauge _ => .Gauge

/-- Every stored accumulator is of the kind its metric was registered with. -/
def WellKinded (r : Registry) : Prop :=
  ∀ n k a, readSeries r n k = some a → ∃ d, defOf r n = some d ∧ a.kind = d.kind

/-- The value of a counter series; 0 when the series does not exist. -/
def counterValue (r : Registry) (name : String) (key : SeriesKey) : ℚ :=
  match readSeries r name key with
  | some (.counter v) => v
  | _ => 0

/-- The total sample count of a histogram series; 0 when the series does not
exist. -/
def histogramCount (r : Registry) (name : String) (key : SeriesKey) : ℕ :=
  match readSeries r name key with
  | some (.histogram _ _ _ count) => count
  | _ => 0

/-- The invariant of the handler metrics between handled requests. -/
def HandlerInv (s : Registry) : Prop :=
  Declared s ∧ WellKinded s ∧
    (∀ op, (histogramCount s durationName [op] : ℚ) =
      counterValue s requestsName [op, "success"] + counterValue s requestsName [op, "error"]) ∧
    (∀ key, readSeries s requestsName key ≠ none →
      ∃ op, key = [op, "success"] ∨ key = [op, "error"]) ∧
    (∀ op, counterValue s errorsName [op, "internal_error"] =
      counterValue s requestsName [op, "error"]) ∧
    (∀ key, readSeries s errorsName key ≠ none → ∃ op, key = [op, "internal_error"])

/-- The calls performing the increments `(metric, labelValues, delta)` in
order. -/
def incrementAll (incs : List (String × SeriesKey × ℚ)) : List Call :=
  incs.map (fun i => Call.inc i.1 i.2.1 i.2.2)

/-- The deltas of the increments addressed to the series `key` of the metric
`name`. -/
def deltasTo (name : String) (key : SeriesKey) (incs : List (String × SeriesKey × ℚ)) :
    List ℚ :=
  (incs.filter (fun i => decide (i.1 = name ∧ i.2.1 = key))).map (fun i => i.2.2)

/-- No store holds two series under the same key. -/
def KeysDistinct (r : Registry) : Prop :=
  ∀ m ∈ r, (m.series.map (fun e => e.1)).Nodup

/-- Modelled from the spec: the counter of the example of section 8,
`requests_total` with the one label `operation`. -/
def requestsTotalExample : MetricDefinition :=
  { name := "requests_total"
    help := ""
    kind := .Counter
    labelNames := ["operation"]
    bucketBoundaries := [] }

/-! ## Store and registry lemmas -/

theorem findMetric_name {r : Registry} {n : String} {m : Metric}
    (h : findMetric r n = some m) : m.definition.name = n := by
  induction r with
  | nil => simp [findMetric] at h
  | cons m0 rest ih =>
    unfold findMetric at h
    split at h
    · rename_i h0
      cases h
      exact h0
    · exact ih h

theorem findMetric_replaceMetric (r : Registry) (m : Metric) (n : String) :
    findMetric (replaceMetric r m) n =
      if m.definition.name = n then (findMetric r n).map (fun _ => m) else findMetric r n := by
  induction r with
  | nil => simp [findMetric, replaceMetric]
  | cons m0 rest ih =>
    unfold replaceMetric
    by_cases h0 : m0.definition.name = m.definition.name
    · by_cases hn : m.definition.name = n
      · simp [findMetric, h0, hn]
      · have h1 : ¬ m0.definition.name = n := by rw [h0]; exact hn
        simp [findMetric, h0, hn]
    · by_cases hn : m.definition.name = n
      · have h1 : ¬ m0.definition.name = n := by rw [← hn]; exact h0
        simp [findMetric, h0, hn, h1, ih]
      · by_cases h1 : m0.definition.name = n
        · have h3 : ¬ n = m.definition.name := fun e => hn e.symm
          simp [findMetric, hn, h1, h3]
        · simp [findMetric, h0, hn, h1, ih]

theorem seriesGet_seriesPut (ss : List (SeriesKey × Accumulator)) (k k1 : SeriesKey)
    (a : Accumulator) :
    seriesGet (seriesPut ss k a) k1 = if k1 = k then some a else seriesGet ss k1 := by
  induction ss with
  | nil =>
    by_cases h : k1 = k
    · simp [seriesGet, seriesPut, h]
    · have h1 : ¬ k = k1 := fun e => h e.symm
      simp [seriesGet, seriesPut, h, h1]
  | cons e rest ih =>
    obtain ⟨k0, a0⟩ := e
    by_cases h0 : k0 = k
    · by_cases h : k1 = k
      · simp [seriesGet, seriesPut, h0, h]
      · have h1 : ¬ k = k1 := fun e => h e.symm
        simp [seriesGet, seriesPut, h0, h, h1]
    · by_cases h : k1 = k
      · subst h
        simp [seriesGet, seriesPut, h0, ih]
      · by_cases h2 : k0 = k1
        · simp [seriesGet, seriesPut, h0, h, h2]
        · simp [seriesGet, seriesPut, h0, h, h2, ih]

theorem seriesPut_seriesPut (ss : List (SeriesKey × Accumulator)) (k : SeriesKey)
    (a b : Accumulator) : seriesPut (seriesPut ss k a) k b = seriesPut ss k b := by
  induction ss with
  | nil => simp [seriesPut]
  | cons e rest ih =>
    obtain ⟨k0, a0⟩ := e
    by_cases h0 : k0 = k
    · simp [seriesPut, h0]
    · simp [seriesPut, h0, ih]

theorem readSeries_storeSeries {r : Registry} {n : String} {m : Metric}
    (hm : findMetric r n = some m) (k : SeriesKey) (a : Accumulator)
    (n1 : String) (k1 : SeriesKey) :
    readSeries (storeSeries r m k a) n1 k1 =
      if n1 = n ∧ k1 = k then some a else readSeries r n1 k1 := by
  have hn := findMetric_name hm
  unfold readSeries storeSeries
  rw [findMetric_replaceMetric]
  by_cases h1 : n1 = n
  · subst h1
    simp only [hn, if_true, hm, Option.map_some', true_and]
    exact seriesGet_seriesPut _ _ _ _
  · have h2 : ¬ m.definition.name = n1 := by rw [hn]; exact fun e => h1 e.symm
    simp [h1, h2]

theorem defOf_storeSeries {r : Registry} {n : String} {m : Metric}
    (hm : findMetric r n = some m) (k : SeriesKey) (a : Accumulator) (n1 : String) :
    defOf (storeSeries r m k a) n1 = defOf r n1 := by
  have hn := findMetric_name hm
  unfold defOf storeSeries
  rw [findMetric_replaceMetric]
  by_cases h1 : n1 = n
  · subst h1
    simp [hn, hm]
  · have h2 : ¬ m.definition.name = n1 := by rw [hn]; exact fun e => h1 e.symm
    simp [h2]

theorem storeSeries_getOrCreate (r : Registry) {m m1 : Metric} {k : SeriesKey}
    {a : Accumulator} (h : getOrCreate m k = .ok (a, m1)) (b : Accumulator) :
    a = currentOf m k ∧ storeSeries r m1 k b = storeSeries r m k b := by
  unfold getOrCreate at h
  split at h
  · split at h
    · rename_i a0 hs
      cases h
      simp [currentOf, hs]
    · rename_i hs
      cases h
      simp [currentOf, hs, storeSeries, seriesPut_seriesPut]
  · cases h

theorem getOrCreate_arity {m : Metric} {k : SeriesKey} :
    (∃ p, getOrCreate m k = .ok p) ↔ k.length = m.definition.labelNames.length := by
  unfold getOrCreate
  constructor
  · intro ⟨p, h⟩
    by_contra hc
    simp [hc] at h
  · intro h
    simp only [h, if_true]
    split
    · exact ⟨_, rfl⟩
    · exact ⟨_, rfl⟩

theorem getOrCreate_error {m : Metric} {k : SeriesKey} {e : MetricError}
    (h : getOrCreate m k = .error e) :
    e = .LabelArityError ∧ k.length ≠ m.definition.labelNames.length := by
  unfold getOrCreate at h
  split at h
  · split at h <;> cases h
  · rename_i hc
    cases h
    exact ⟨rfl, hc⟩

/-! ## Recorder lemmas -/

theorem incrementCounter_eq (r : Registry) (n : String) (k : SeriesKey) (d : ℚ) :
    incrementCounter r n k d =
      match findMetric r n with
      | none => (.error .UnknownMetricError, r)
      | some m =>
        if m.definition.kind = .Counter then
          if k.length = m.definition.labelNames.length then
            if 0 ≤ d then (.ok (), storeSeries r m k ((currentOf m k).add d))
            else (.error .InvalidDeltaError, r)
          else (.error .LabelArityError, r)
        else (.error .WrongKindError, r) := by
  unfold incrementCounter
  cases hm : findMetric r n with
  | none => rfl
  | some m =>
    by_cases hk : m.definition.kind = .Counter
    · simp only [hk, if_true]
      cases hg : getOrCreate m k with
      | error e =>
        obtain ⟨he, ha⟩ := getOrCreate_error hg
        simp [he, ha]
      | ok p =>
        obtain ⟨a, m1⟩ := p
        have ha := getOrCreate_arity.mp ⟨_, hg⟩
        obtain ⟨h1, h2⟩ := storeSeries_getOrCreate r hg (a.add d)
        subst h1
        simp only [ha, if_true, h2]
    · simp [hk]

theorem observeHistogram_eq (r : Registry) (n : String) (k : SeriesKey) (v : ℚ) :
    observeHistogram r n k v =
      match findMetric r n with
      | none => (.error .UnknownMetricError, r)
      | some m =>
        if m.definition.kind = .Histogram then
          if k.length = m.definition.labelNames.length then
            (.ok (), storeSeries r m k ((currentOf m k).observe m.definition.bucketBoundaries v))
          else (.error .LabelArityError, r)
        else (.error .WrongKindError, r) := by
  unfold observeHistogram
  cases hm : findMetric r n with
  | none => rfl
  | some m =>
    by_cases hk : m.definition.kind = .Histogram
    · simp only [hk, if_true]
      cases hg : getOrCreate m k with
      | error e =>
        obtain ⟨he, ha⟩ := getOrCreate_error hg
        simp [he, ha]
      | ok p =>
        obtain ⟨a, m1⟩ := p
        have ha := getOrCreate_arity.mp ⟨_, hg⟩
        obtain ⟨h1, h2⟩ := storeSeries_getOrCreate r hg
          (a.observe m.definition.bucketBoundaries v)
        subst h1
        simp only [ha, if_true, h2]
    · simp [hk]

theorem setGauge_eq (r : Registry) (n : String) (k : SeriesKey) (v : ℚ) :
    setGauge r n k v =
      match findMetric r n with
      | none => (.error .UnknownMetricError, r)
      | some m =>
        if m.definition.kind = .Gauge then
          if k.length = m.definition.labelNames.length then
            (.ok (), storeSeries r m k ((currentOf m k).set v))
          else (.error .LabelArityError, r)
        else (.error .WrongKindError, r) := by
  unfold setGauge
  cases hm : findMetric r n with
  | none => rfl
  | some m =>
    by_cases hk : m.definition.kind = .Gauge
    · simp only [hk, if_true]
      cases hg : getOrCreate m k with
      | error e =>
        obtain ⟨he, ha⟩ := getOrCreate_error hg
        simp [he, ha]
      | ok p =>
        obtain ⟨a, m1⟩ := p
        have ha := getOrCreate_arity.mp ⟨_, hg⟩
        obtain ⟨h1, h2⟩ := storeSeries_getOrCreate r hg (a.set v)
        subst h1
        simp only [ha, if_true, h2]
    · simp [hk]

/-- A Recorder call either leaves the registry as it was, or succeeds and
stores one updated accumulator under the series it addresses. -/
theorem applyCall_shape (r : Registry) (c : Call) :
    (applyCall r c).2 = r ∨
      ∃ m, findMetric r c.name = some m ∧ m.definition.kind = c.kind ∧
        (applyCall r c).1 = .ok () ∧
        (applyCall r c).2 =
          storeSeries r m c.labelValues (c.effect m.definition (currentOf m c.labelValues)) := by
  cases c with
  | inc n k d =>
    simp only [applyCall, Call.name, Call.labelValues, Call.kind, Call.effect,
      incrementCounter_eq]
    cases hm : findMetric r n with
    | none => left; rfl
    | some m =>
      by_cases h1 : m.definition.kind = .Counter
      · by_cases h2 : k.length = m.definition.labelNames.length
        · by_cases h3 : 0 ≤ d
          · right
            exact ⟨m, rfl, h1, by simp [h1, h2, h3], by simp [h1, h2, h3]⟩
          · left; simp [h1, h2, h3]
        · left; simp [h1, h2]
      · left; simp [h1]
  | observe n k v =>
    simp only [applyCall, Call.name, Call.labelValues, Call.kind, Call.effect,
      observeHistogram_eq]
    cases hm : findMetric r n with
    | none => left; rfl
    | some m =>
      by_cases h1 : m.definition.kind = .Histogram
      · by_cases h2 : k.length = m.definition.labelNames.length
        · right
          exact ⟨m, rfl, h1, by simp [h1, h2], by simp [h1, h2]⟩
        · left; simp [h1, h2]
      · left; simp [h1]
  | set n k v =>
    simp only [applyCall, Call.name, Call.labelValues, Call.kind, Call.effect, setGauge_eq]
    cases hm : findMetric r n with
    | none => left; rfl
    | some m =>
      by_cases h1 : m.definition.kind = .Gauge
      · by_cases h2 : k.length = m.definition.labelNames.length
        · right
          exact ⟨m, rfl, h1, by simp [h1, h2], by simp [h1, h2]⟩
        · left; simp [h1, h2]
      · left; simp [h1]

/-- A Recorder call never changes a definition. -/
theorem defOf_applyCall (r : Registry) (c : Call) (n : String) :
    defOf (applyCall r c).2 n = defOf r n := by
  rcases applyCall_shape r c with h | ⟨m, hm, _, _, h⟩
  · rw [h]
  · rw [h, defOf_storeSeries hm]

/-- A Recorder call touches no series but the one it addresses. -/
theorem readSeries_applyCall_other (r : Registry) (c : Call) (n : String) (k : SeriesKey)
    (h : ¬ (n = c.name ∧ k = c.labelValues)) :
    readSeries (applyCall r c).2 n k = readSeries r n k := by
  rcases applyCall_shape r c with h1 | ⟨m, hm, _, _, h1⟩
  · rw [h1]
  · rw [h1, readSeries_storeSeries hm, if_neg h]

theorem defOf_some {r : Registry} {n : String} {d : MetricDefinition} (h : defOf r n = some d) :
    ∃ m, findMetric r n = some m ∧ m.definition = d := by
  unfold defOf at h
  cases hm : findMetric r n with
  | none => simp [hm] at h
  | some m =>
    rw [hm] at h
    exact ⟨m, rfl, by simpa using h⟩

theorem currentOf_eq {r : Registry} {n : String} {m : Metric} (hm : findMetric r n = some m)
    (k : SeriesKey) :
    currentOf m k = (readSeries r n k).getD (zeroAccumulator m.definition) := by
  simp [currentOf, readSeries, hm]

/-- Effect of a successful counter increment. -/
theorem incrementCounter_ok {r : Registry} {n : String} {d : MetricDefinition}
    (hd : defOf r n = some d) (hk : d.kind = .Counter) (k : SeriesKey)
    (ha : k.length = d.labelNames.length) (delta : ℚ) (h0 : 0 ≤ delta) :
    (incrementCounter r n k delta).1 = .ok () ∧
      ∀ n1 k1, readSeries (incrementCounter r n k delta).2 n1 k1 =
        if n1 = n ∧ k1 = k then
          some (((readSeries r n k).getD (zeroAccumulator d)).add delta)
        else readSeries r n1 k1 := by
  obtain ⟨m, hm, rfl⟩ := defOf_some hd
  rw [incrementCounter_eq]
  simp only [hm, hk, ha, h0, if_true, true_and]
  intro n1 k1
  rw [readSeries_storeSeries hm, currentOf_eq hm]

/-- Effect of a successful histogram observation. -/
theorem observeHistogram_ok {r : Registry} {n : String} {d : MetricDefinition}
    (hd : defOf r n = some d) (hk : d.kind = .Histogram) (k : SeriesKey)
    (ha : k.length = d.labelNames.length) (v : ℚ) :
    (observeHistogram r n k v).1 = .ok () ∧
      ∀ n1 k1, readSeries (observeHistogram r n k v).2 n1 k1 =
        if n1 = n ∧ k1 = k then
          some (((readSeries r n k).getD (zeroAccumulator d)).observe d.bucketBoundaries v)
        else readSeries r n1 k1 := by
  obtain ⟨m, hm, rfl⟩ := defOf_some hd
  rw [observeHistogram_eq]
  simp only [hm, hk, ha, if_true, true_and]
  intro n1 k1
  rw [readSeries_storeSeries hm, currentOf_eq hm]

/-- Effect of a successful gauge write. -/
theorem setGauge_ok {r : Registry} {n : String} {d : MetricDefinition}
    (hd : defOf r n = some d) (hk : d.kind = .Gauge) (k : SeriesKey)
    (ha : k.length = d.labelNames.length) (v : ℚ) :
    (setGauge r n k v).1 = .ok () ∧
      ∀ n1 k1, readSeries (setGauge r n k v).2 n1 k1 =
        if n1 = n ∧ k1 = k then
          some (((readSeries r n k).getD (zeroAccumulator d)).set v)
        else readSeries r n1 k1 := by
  obtain ⟨m, hm, rfl⟩ := defOf_some hd
  rw [setGauge_eq]
  simp only [hm, hk, ha, if_true, true_and]
  intro n1 k1
  rw [readSeries_storeSeries hm, currentOf_eq hm]

/-- A call on a metric of another kind fails and leaves the registry as it was. -/
theorem applyCall_wrongKind {r : Registry} {c : Call} {d : MetricDefinition}
    (hd : defOf r c.name = some d) (hk : d.kind ≠ c.kind) :
    applyCall r c = (.error .WrongKindError, r) := by
  obtain ⟨m, hm, rfl⟩ := defOf_some hd
  cases c with
  | inc n k v =>
    simp only [Call.name] at hm
    simp only [Call.kind] at hk
    simp [applyCall, incrementCounter_eq, hm, hk]
  | observe n k v =>
    simp only [Call.name] at hm
    simp only [Call.kind] at hk
    simp [applyCall, observeHistogram_eq, hm, hk]
  | set n k v =>
    simp only [Call.name] at hm
    simp only [Call.kind] at hk
    simp [applyCall, setGauge_eq, hm, hk]

theorem runCalls_cons_ok {r : Registry} {c : Call} (cs : List Call)
    (h : (applyCall r c).1 = .ok ()) :
    runCalls r (c :: cs) = runCalls (applyCall r c).2 cs := by
  rw [runCalls]
  generalize applyCall r c = p at h
  obtain ⟨x, r1⟩ := p
  cases x with
  | error e => cases h
  | ok u => rfl

/-! ## Histogram lemmas -/

theorem bumpBuckets_map (bs : List ℚ) (f : ℚ → ℕ) (v : ℚ) :
    bumpBuckets bs (bs.map f) v = bs.map (fun b => if v ≤ b then f b + 1 else f b) := by
  induction bs with
  | nil => simp [bumpBuckets]
  | cons b rest ih => simp [bumpBuckets, ih]

theorem zeroAccumulator_histogram {d : MetricDefinition} (hk : d.kind = .Histogram) :
    zeroAccumulator d = histOf d.bucketBoundaries [] := by
  simp [zeroAccumulator, hk, histOf]

theorem histOf_observe (bs vs : List ℚ) (v : ℚ) :
    (histOf bs vs).observe bs v = histOf bs (vs ++ [v]) := by
  simp only [histOf, Accumulator.observe, bumpBuckets_map, List.length_append,
    List.length_singleton, List.sum_append, List.sum_singleton, List.countP_append]
  congr 1
  apply List.map_congr_left
  intro b _
  by_cases h : v ≤ b
  · simp [h, List.countP_cons]
  · simp [h, List.countP_cons]

theorem defOf_initial_duration : defOf initialState durationName = some graphqlDuration := by
  rfl

theorem defOf_runCalls (r : Registry) (cs : List Call) (n : String) :
    defOf (runCalls r cs).2 n = defOf r n := by
  induction cs generalizing r with
  | nil => rfl
  | cons c rest ih =>
    rw [runCalls]
    have h := defOf_applyCall r c n
    generalize applyCall r c = p at h
    obtain ⟨x, r1⟩ := p
    cases x with
    | error e => exact h
    | ok u => simp only; rw [ih]; exact h

theorem runCalls_observeAll {r : Registry} (hd : defOf r durationName = some graphqlDuration)
    (operation : String) (ws vs : List ℚ)
    (hr : (readSeries r durationName [operation]).getD (zeroAccumulator graphqlDuration) =
      histOf graphqlDuration.bucketBoundaries ws) :
    (runCalls r (observeAll [operation] vs)).1 = .ok () ∧
      (readSeries (runCalls r (observeAll [operation] vs)).2 durationName [operation]).getD
        (zeroAccumulator graphqlDuration) = histOf graphqlDuration.bucketBoundaries (ws ++ vs) ∧
      (vs ≠ [] →
        (readSeries (runCalls r (observeAll [operation] vs)).2 durationName [operation]).isSome) ∧
      (vs = [] → (runCalls r (observeAll [operation] vs)).2 = r) := by
  induction vs generalizing r ws with
  | nil => simp [observeAll, runCalls, hr]
  | cons v rest ih =>
    obtain ⟨h1, h2⟩ := observeHistogram_ok hd rfl [operation] rfl v
    have hstep : runCalls r (observeAll [operation] (v :: rest)) =
        runCalls (observeHistogram r durationName [operation] v).2 (observeAll [operation] rest) :=
      runCalls_cons_ok (c := Call.observe durationName [operation] v) _ h1
    rw [hstep]
    have hd1 : defOf (observeHistogram r durationName [operation] v).2 durationName =
        some graphqlDuration := by
      rw [← hd]
      exact defOf_applyCall r (Call.observe durationName [operation] v) durationName
    have hr1 : (readSeries (observeHistogram r durationName [operation] v).2 durationName
        [operation]).getD (zeroAccumulator graphqlDuration) =
        histOf graphqlDuration.bucketBoundaries (ws ++ [v]) := by
      rw [h2, if_pos ⟨rfl, rfl⟩, hr, Option.getD_some, histOf_observe]
    obtain ⟨g1, g2, g3, _⟩ := ih hd1 (ws ++ [v]) hr1
    refine ⟨g1, by simpa using g2, fun _ => ?_, fun h => by cases h⟩
    by_cases hrest : rest = []
    · subst hrest
      simp [observeAll, runCalls, h2]
    · exact g3 hrest

/-- The initial registry is the result of registering the declared metrics in
order; no two of them share a name. -/
theorem initialState_registered : registerAll [] declaredMetrics = .ok initialState := rfl

theorem readSeries_initial (n : String) (k : SeriesKey) : readSeries initialState n k = none := by
  simp only [readSeries, initialState, declaredMetrics, List.map, findMetric]
  split_ifs <;> rfl

theorem durationInv_initial : DurationInv initialState :=
  ⟨rfl, fun key acc h => by rw [readSeries_initial] at h; cases h⟩

theorem durationInv_applyCall {r : Registry} (hr : DurationInv r) (c : Call) :
    DurationInv (applyCall r c).2 := by
  obtain ⟨hd, hs⟩ := hr
  refine ⟨by rw [defOf_applyCall]; exact hd, ?_⟩
  intro key acc hacc
  by_cases hc : durationName = c.name ∧ key = c.labelValues
  · obtain ⟨hn, hkey⟩ := hc
    by_cases hk : c.kind = .Histogram
    · cases c with
      | inc n k v => cases hk
      | set n k v => cases hk
      | observe n k v =>
        simp only [Call.name] at hn
        simp only [Call.labelValues] at hkey
        subst hn hkey
        simp only [applyCall] at hacc
        by_cases ha : key.length = graphqlDuration.labelNames.length
        · obtain ⟨_, h2⟩ := observeHistogram_ok hd rfl key ha v
          rw [h2, if_pos ⟨rfl, rfl⟩] at hacc
          cases hread : readSeries r durationName key with
          | none =>
            rw [hread] at hacc
            simp only [Option.getD_none, Option.some.injEq] at hacc
            rw [zeroAccumulator_histogram rfl, histOf_observe] at hacc
            exact ⟨_, hacc.symm⟩
          | some a0 =>
            obtain ⟨vs, rfl⟩ := hs key a0 hread
            rw [hread] at hacc
            simp only [Option.getD_some, Option.some.injEq] at hacc
            rw [histOf_observe] at hacc
            exact ⟨_, hacc.symm⟩
        · obtain ⟨m, hm, hdef⟩ := defOf_some hd
          have ha1 : ¬ key.length = m.definition.labelNames.length := by rw [hdef]; exact ha
          have hk1 : m.definition.kind = .Histogram := by rw [hdef]; rfl
          rw [observeHistogram_eq] at hacc
          simp only [hm, hk1, ha1, if_true, if_false] at hacc
          exact hs key acc hacc
    · have hd1 : defOf r c.name = some graphqlDuration := by rw [← hn]; exact hd
      have hk1 : graphqlDuration.kind ≠ c.kind := fun e => hk e.symm
      rw [applyCall_wrongKind hd1 hk1] at hacc
      exact hs key acc hacc
  · rw [readSeries_applyCall_other r c durationName key hc] at hacc
    exact hs key acc hacc

theorem durationInv_execCalls {r : Registry} (hr : DurationInv r) (cs : List Call) :
    DurationInv (execCalls r cs) := by
  induction cs generalizing r with
  | nil => exact hr
  | cons c rest ih => exact ih (durationInv_applyCall hr c)

theorem countP_le_mono (vs : List ℚ) {a b : ℚ} (h : a ≤ b) :
    vs.countP (fun v => decide (v ≤ a)) ≤ vs.countP (fun v => decide (v ≤ b)) := by
  apply List.countP_mono_left
  intro x _ hx
  simp only [decide_eq_true_eq] at hx ⊢
  exact le_trans hx h

/-! ## Claims on the histogram -/

/-- C1: for every sequence of observations made on one series of the duration
histogram (boundaries 0.1, 0.5, 1, 2, 5), every call succeeds and afterwards
the count of each bucket is the number of observed values at most its
boundary, the +Inf bucket and the total count are the number of observations,
and the sum is the sum of the values; observing 0.05, 0.3, 1.5 gives buckets
1, 2, 2, 3, 3, +Inf 3, sum 1.85 and count 3. -/
theorem histogram_counts_observations :
    (∀ (operation : String) (vs : List ℚ),
      (runCalls initialState (observeAll [operation] vs)).1 = .ok () ∧
      readSeries (runCalls initialState (observeAll [operation] vs)).2 durationName [operation] =
        if vs = [] then none
        else some (.histogram
          [vs.countP (fun v => decide (v ≤ 1 / 10)), vs.countP (fun v => decide (v ≤ 1 / 2)),
            vs.countP (fun v => decide (v ≤ 1)), vs.countP (fun v => decide (v ≤ 2)),
            vs.countP (fun v => decide (v ≤ 5))]
          vs.length vs.sum vs.length)) ∧
    readSeries (runCalls initialState (observeAll ["listWorkflows"] [1 / 20, 3 / 10, 3 / 2])).2
      durationName ["listWorkflows"] = some (.histogram [1, 2, 2, 3, 3] 3 (37 / 20) 3) := by
  have key : ∀ (operation : String) (vs : List ℚ),
      (runCalls initialState (observeAll [operation] vs)).1 = .ok () ∧
      readSeries (runCalls initialState (observeAll [operation] vs)).2 durationName [operation] =
        if vs = [] then none
        else some (.histogram
          [vs.countP (fun v => decide (v ≤ 1 / 10)), vs.countP (fun v => decide (v ≤ 1 / 2)),
            vs.countP (fun v => decide (v ≤ 1)), vs.countP (fun v => decide (v ≤ 2)),
            vs.countP (fun v => decide (v ≤ 5))]
          vs.length vs.sum vs.length) := by
    intro operation vs
    have h0 : (readSeries initialState durationName [operation]).getD
        (zeroAccumulator graphqlDuration) = histOf graphqlDuration.bucketBoundaries [] := by
      rw [readSeries_initial, Option.getD_none, zeroAccumulator_histogram rfl]
    obtain ⟨g1, g2, g3, g4⟩ := runCalls_observeAll defOf_initial_duration operation [] vs h0
    refine ⟨g1, ?_⟩
    by_cases hv : vs = []
    · rw [if_pos hv, g4 hv, readSeries_initial]
    · rw [if_neg hv]
      have hsome := g3 hv
      cases hread : readSeries (runCalls initialState (observeAll [operation] vs)).2
          durationName [operation] with
      | none => rw [hread] at hsome; cases hsome
      | some a =>
        rw [hread, Option.getD_some] at g2
        rw [g2]
        simp [histOf, graphqlDuration]
  refine ⟨key, ?_⟩
  rw [(key "listWorkflows" [1 / 20, 3 / 10, 3 / 2]).2, if_neg (List.cons_ne_nil _ _)]
  norm_num [List.countP_cons]

/-- C4: in every state reachable from the initial one by any sequence of
Recorder calls, each series of the duration histogram has cumulative bucket
counts that are non-decreasing in boundary order, up to the +Inf bucket, and
the +Inf bucket equals the total sample count. -/
theorem histogram_buckets_monotone (cs : List Call) (key : SeriesKey) (acc : Accumulator)
    (h : readSeries (execCalls initialState cs) durationName key = some acc) :
    ∃ c1 c2 c3 c4 c5 inf sum count,
      acc = .histogram [c1, c2, c3, c4, c5] inf sum count ∧
      c1 ≤ c2 ∧ c2 ≤ c3 ∧ c3 ≤ c4 ∧ c4 ≤ c5 ∧ c5 ≤ inf ∧ inf = count := by
  obtain ⟨vs, rfl⟩ := (durationInv_execCalls durationInv_initial cs).2 key acc h
  refine ⟨_, _, _, _, _, _, _, _, rfl, ?_, ?_, ?_, ?_, ?_, rfl⟩
  · exact countP_le_mono vs (by norm_num)
  · exact countP_le_mono vs (by norm_num)
  · exact countP_le_mono vs (by norm_num)
  · exact countP_le_mono vs (by norm_num)
  · exact List.countP_le_length _

/-- C4 at a concrete state: after observing 0.3 and 7 on one series. -/
theorem histogram_buckets_monotone_witness :
    readSeries
        (execCalls initialState
          [.observe durationName ["getWorkflow"] (3 / 10), .observe durationName ["getWorkflow"] 7])
        durationName ["getWorkflow"] = some (.histogram [0, 1, 1, 1, 1] 2 (73 / 10) 2) ∧
    ∃ c1 c2 c3 c4 c5 inf sum count,
      Accumulator.histogram [0, 1, 1, 1, 1] 2 (73 / 10) 2 =
        .histogram [c1, c2, c3, c4, c5] inf sum count ∧
      c1 ≤ c2 ∧ c2 ≤ c3 ∧ c3 ≤ c4 ∧ c4 ≤ c5 ∧ c5 ≤ inf ∧ inf = count := by
  have h : readSeries
      (execCalls initialState
        [.observe durationName ["getWorkflow"] (3 / 10), .observe durationName ["getWorkflow"] 7])
      durationName ["getWorkflow"] = some (.histogram [0, 1, 1, 1, 1] 2 (73 / 10) 2) := by
    simp [execCalls, applyCall, observeHistogram, initialState, declaredMetrics, findMetric,
      graphqlRequests, graphqlDuration, graphqlErrors, activeSessions, requestsName,
      durationName, errorsName, sessionsName, getOrCreate, seriesGet, seriesPut,
      zeroAccumulator, storeSeries, replaceMetric, Accumulator.observe, bumpBuckets,
      readSeries]
    norm_num
  exact ⟨h, histogram_buckets_monotone _ _ _ h⟩

/-! ## Wrong-kind calls -/

/-- C5: calling `incrementCounter` on a metric registered as a Histogram fails
with WrongKindError, and the registry after the failed call is the registry
before it, so every accumulator of every metric reads the same. -/
theorem incrementCounter_on_histogram (r : Registry) (name : String) (m : Metric)
    (labelValues : SeriesKey) (delta : ℚ)
    (hm : findMetric r name = some m) (hk : m.definition.kind = .Histogram) :
    incrementCounter r name labelValues delta = (.error .WrongKindError, r) ∧
      ∀ n k, readSeries (incrementCounter r name labelValues delta).2 n k = readSeries r n k := by
  have h : incrementCounter r name labelValues delta = (.error .WrongKindError, r) := by
    rw [incrementCounter_eq]
    simp [hm, hk]
  exact ⟨h, fun n k => by rw [h]⟩

/-- C5 at the duration histogram of the program, holding one observed series. -/
theorem incrementCounter_on_histogram_witness :
    incrementCounter (execCalls initialState [.observe durationName ["getWorkflow"] (3 / 10)])
        durationName ["getWorkflow"] 1 =
      (.error .WrongKindError,
        execCalls initialState [.observe durationName ["getWorkflow"] (3 / 10)]) ∧
    ∀ n k,
      readSeries
        (incrementCounter (execCalls initialState [.observe durationName ["getWorkflow"] (3 / 10)])
          durationName ["getWorkflow"] 1).2 n k =
      readSeries (execCalls initialState [.observe durationName ["getWorkflow"] (3 / 10)]) n k :=
  incrementCounter_on_histogram
    (execCalls initialState [.observe durationName ["getWorkflow"] (3 / 10)]) durationName
    { definition := graphqlDuration
      series := [(["getWorkflow"], .histogram [0, 1, 1, 1, 1] 1 (3 / 10) 1)] }
    ["getWorkflow"] 1
    (by
      simp [execCalls, applyCall, observeHistogram, initialState, declaredMetrics, findMetric,
        graphqlRequests, graphqlDuration, graphqlErrors, activeSessions, requestsName,
        durationName, errorsName, sessionsName, getOrCreate, seriesGet, seriesPut,
        zeroAccumulator, storeSeries, replaceMetric, Accumulator.observe, bumpBuckets]
      norm_num)
    rfl

/-! ## The handler -/

theorem defOf_execCalls (r : Registry) (cs : List Call) (n : String) :
    defOf (execCalls r cs) n = defOf r n := by
  induction cs generalizing r with
  | nil => rfl
  | cons c rest ih =>
    simp only [execCalls]
    rw [ih, defOf_applyCall]

theorem applyCall_ok {r : Registry} {c : Call} {d : MetricDefinition}
    (hd : defOf r c.name = some d) (hk : d.kind = c.kind)
    (ha : c.labelValues.length = d.labelNames.length) (hv : c.valid) :
    (applyCall r c).1 = .ok () := by
  cases c with
  | inc n k v => exact (incrementCounter_ok hd hk k ha v hv).1
  | observe n k v => exact (observeHistogram_ok hd hk k ha v).1
  | set n k v => exact (setGauge_ok hd hk k ha v).1

theorem runCalls_ok {r : Registry} (cs : List Call)
    (h : ∀ c ∈ cs, ∃ d, defOf r c.name = some d ∧ d.kind = c.kind ∧
      c.labelValues.length = d.labelNames.length ∧ c.valid) :
    (runCalls r cs).1 = .ok () := by
  induction cs generalizing r with
  | nil => rfl
  | cons c rest ih =>
    obtain ⟨d, hd, hk, ha, hv⟩ := h c (List.mem_cons_self _ _)
    rw [runCalls_cons_ok rest (applyCall_ok hd hk ha hv)]
    apply ih
    intro c1 hc1
    obtain ⟨d1, hd1, rest1⟩ := h c1 (List.mem_cons_of_mem _ hc1)
    exact ⟨d1, by rw [defOf_applyCall]; exact hd1, rest1⟩

theorem graphqlHandler_snd (s : Registry) (query : Option String) (d : Draws) :
    (graphqlHandler s query d).2 = (runCalls s (handlerCalls query d)).2 := by
  unfold graphqlHandler
  generalize runCalls s (handlerCalls query d) = p
  obtain ⟨x, s1⟩ := p
  cases x with
  | error e => rfl
  | ok u => simp only; split_ifs <;> rfl

theorem graphqlHandler_fst_ok {s : Registry} {query : Option String} {d : Draws}
    (h : (runCalls s (handlerCalls query d)).1 = .ok ()) :
    (graphqlHandler s query d).1 =
      .ok (if d.roll < 1 / 10 then .internalServerError
        else .success (operationLabel query)) := by
  unfold graphqlHandler
  generalize runCalls s (handlerCalls query d) = p at h
  obtain ⟨x, s1⟩ := p
  cases x with
  | error e => cases h
  | ok u => simp only; split_ifs <;> rfl

theorem declared_initial : Declared initialState := ⟨rfl, rfl, rfl, rfl⟩

theorem declared_execCalls (cs : List Call) : Declared (execCalls initialState cs) := by
  simp only [Declared, defOf_execCalls]
  exact declared_initial

theorem handlerCalls_ok {s : Registry} (hs : Declared s) (query : Option String) (d : Draws) :
    ∀ c ∈ handlerCalls query d, ∃ d0, defOf s c.name = some d0 ∧ d0.kind = c.kind ∧
      c.labelValues.length = d0.labelNames.length ∧ c.valid := by
  obtain ⟨h1, h2, h3, _⟩ := hs
  intro c hc
  unfold handlerCalls at hc
  split_ifs at hc
  · simp only [List.mem_cons, List.mem_singleton, List.not_mem_nil, or_false] at hc
    rcases hc with rfl | rfl | rfl
    · exact ⟨_, h2, rfl, rfl, trivial⟩
    · exact ⟨_, h1, rfl, rfl, by simp [Call.valid]⟩
    · exact ⟨_, h3, rfl, rfl, by simp [Call.valid]⟩
  · simp only [List.mem_cons, List.mem_singleton, List.not_mem_nil, or_false] at hc
    rcases hc with rfl | rfl
    · exact ⟨_, h2, rfl, rfl, trivial⟩
    · exact ⟨_, h1, rfl, rfl, by simp [Call.valid]⟩

/-- C3: every label-values lookup of `graphqlHandler` supplies as many values
as its metric declares label names (2 for the requests counter, 1 for the
duration histogram, 2 for the errors counter), for every query and on both
paths; in every state reachable from the initial one by Recorder calls the
lookup of `getOrCreate` succeeds for each of them and the handler completes
without an error, so the arity-mismatch branch is never taken. -/
theorem handler_label_arity (cs : List Call) (query : Option String) (d : Draws) :
    (∀ c ∈ handlerCalls query d,
      (c.name = requestsName ∧ c.labelValues.length = 2 ∧
          graphqlRequests.labelNames.length = 2) ∨
        (c.name = durationName ∧ c.labelValues.length = 1 ∧
          graphqlDuration.labelNames.length = 1) ∨
        (c.name = errorsName ∧ c.labelValues.length = 2 ∧
          graphqlErrors.labelNames.length = 2)) ∧
    (∀ c ∈ handlerCalls query d, ∃ m,
      findMetric (execCalls initialState cs) c.name = some m ∧
        c.labelValues.length = m.definition.labelNames.length ∧
        ∃ p, getOrCreate m c.labelValues = .ok p) ∧
    (graphqlHandler (execCalls initialState cs) query d).1 =
      .ok (if d.roll < 1 / 10 then .internalServerError
        else .success (operationLabel query)) := by
  refine ⟨?_, ?_, ?_⟩
  · intro c hc
    unfold handlerCalls at hc
    split_ifs at hc
    · simp only [List.mem_cons, List.mem_singleton, List.not_mem_nil, or_false] at hc
      rcases hc with rfl | rfl | rfl
      · right; left; exact ⟨rfl, rfl, rfl⟩
      · left; exact ⟨rfl, rfl, rfl⟩
      · right; right; exact ⟨rfl, rfl, rfl⟩
    · simp only [List.mem_cons, List.mem_singleton, List.not_mem_nil, or_false] at hc
      rcases hc with rfl | rfl
      · right; left; exact ⟨rfl, rfl, rfl⟩
      · left; exact ⟨rfl, rfl, rfl⟩
  · intro c hc
    obtain ⟨d0, hd0, _, ha, _⟩ := handlerCalls_ok (declared_execCalls cs) query d c hc
    obtain ⟨m, hm, rfl⟩ := defOf_some hd0
    exact ⟨m, hm, ha, getOrCreate_arity.mpr ha⟩
  · exact graphqlHandler_fst_ok (runCalls_ok _ (handlerCalls_ok (declared_execCalls cs) query d))

/-- C10: the operation label of a request is "unknown" when the query
parameter is absent or empty and the parameter value itself otherwise; it is
never empty, and it is the first label value of every series the handler
records for the request. -/
theorem operation_label_rule (query : Option String) (d : Draws) :
    operationLabel none = "unknown" ∧
    operationLabel (some "") = "unknown" ∧
    (∀ v : String, v ≠ "" → operationLabel (some v) = v) ∧
    operationLabel query ≠ "" ∧
    (∀ c ∈ handlerCalls query d, c.labelValues.head? = some (operationLabel query)) := by
  refine ⟨rfl, rfl, ?_, ?_, ?_⟩
  · intro v hv
    simp [operationLabel, queryGet, hv]
  · unfold operationLabel
    split_ifs with h
    · decide
    · exact h
  · intro c hc
    unfold handlerCalls at hc
    split_ifs at hc
    · simp only [List.mem_cons, List.mem_singleton, List.not_mem_nil, or_false] at hc
      rcases hc with rfl | rfl | rfl <;> rfl
    · simp only [List.mem_cons, List.mem_singleton, List.not_mem_nil, or_false] at hc
      rcases hc with rfl | rfl <;> rfl

/-! ## The traffic generator -/

theorem defOf_trafficTick (s : Registry) (t : Tick) (n : String) :
    defOf (trafficTick s t).2 n = defOf s n := by
  unfold trafficTick
  have h := fun s1 => defOf_applyCall s1
    (Call.set sessionsName [] ((10 + t.sessions : ℕ) : ℚ)) n
  simp only [applyCall] at h
  cases t.request with
  | none => exact h s
  | some d =>
    simp only
    rw [h, graphqlHandler_snd, defOf_runCalls]

theorem defOf_trafficGenerator (s : Registry) (ts : List Tick) (n : String) :
    defOf (trafficGenerator s ts) n = defOf s n := by
  induction ts generalizing s with
  | nil => rfl
  | cons t rest ih =>
    simp only [trafficGenerator]
    rw [ih, defOf_trafficTick]

theorem trafficGenerator_append (s : Registry) (ts : List Tick) (t : Tick) :
    trafficGenerator s (ts ++ [t]) = (trafficTick (trafficGenerator s ts) t).2 := by
  induction ts generalizing s with
  | nil => rfl
  | cons t0 rest ih =>
    simp only [List.cons_append, trafficGenerator]
    exact ih _

/-- C7: after every tick of `trafficGenerator` whose draw `sessions` is below
40, the active-sessions gauge holds exactly `10 + sessions`, a value from 10 to
49, whatever Recorder calls and ticks came before (so whatever the gauge held)
and whether or not the synthetic request was handled. -/
theorem trafficTick_sets_gauge (cs : List Call) (ts : List Tick) (t : Tick)
    (hn : t.sessions < 40) :
    (trafficTick (trafficGenerator (execCalls initialState cs) ts) t).1 = .ok () ∧
    readSeries (trafficGenerator (execCalls initialState cs) (ts ++ [t])) sessionsName [] =
      some (.gauge ((10 + t.sessions : ℕ) : ℚ)) ∧
    (10 : ℚ) ≤ ((10 + t.sessions : ℕ) : ℚ) ∧ ((10 + t.sessions : ℕ) : ℚ) ≤ 49 := by
  rw [trafficGenerator_append]
  have hd : ∀ s1, defOf s1 sessionsName = some activeSessions →
      (setGauge s1 sessionsName [] ((10 + t.sessions : ℕ) : ℚ)).1 = .ok () ∧
      readSeries (setGauge s1 sessionsName [] ((10 + t.sessions : ℕ) : ℚ)).2 sessionsName [] =
        some (.gauge ((10 + t.sessions : ℕ) : ℚ)) := by
    intro s1 h1
    obtain ⟨g1, g2⟩ := setGauge_ok h1 rfl [] rfl ((10 + t.sessions : ℕ) : ℚ)
    refine ⟨g1, ?_⟩
    rw [g2, if_pos ⟨rfl, rfl⟩]
    rfl
  have hbound : (10 : ℚ) ≤ ((10 + t.sessions : ℕ) : ℚ) ∧
      ((10 + t.sessions : ℕ) : ℚ) ≤ 49 := by
    constructor
    · exact_mod_cast Nat.le_add_right 10 t.sessions
    · have : 10 + t.sessions ≤ 49 := by omega
      exact_mod_cast this
  have h0 : defOf (trafficGenerator (execCalls initialState cs) ts) sessionsName =
      some activeSessions := by
    rw [defOf_trafficGenerator]
    exact (declared_execCalls cs).2.2.2
  unfold trafficTick
  cases t.request with
  | none =>
    obtain ⟨g1, g2⟩ := hd _ h0
    exact ⟨g1, g2, hbound⟩
  | some d =>
    have h1 : defOf (graphqlHandler (trafficGenerator (execCalls initialState cs) ts)
        (some (operations.get t.pick)) d).2 sessionsName = some activeSessions := by
      rw [graphqlHandler_snd, defOf_runCalls]
      exact h0
    obtain ⟨g1, g2⟩ := hd _ h1
    exact ⟨g1, g2, hbound⟩

/-- C7 at a concrete run: the gauge was set to 49 by hand, one tick drew 39, and
the next tick, whose request was handled, draws 0. -/
theorem trafficTick_sets_gauge_witness :
    (0 < 40) ∧
    (trafficTick
      (trafficGenerator (execCalls initialState [.set sessionsName [] 49])
        [{ pick := ⟨0, by decide⟩, request := none, sessions := 39 }])
      { pick := ⟨2, by decide⟩
        request := some { sleepMs := 120, roll := 1 / 2, elapsed := 3 / 25 }
        sessions := 0 }).1 = .ok () ∧
    readSeries
      (trafficGenerator (execCalls initialState [.set sessionsName [] 49])
        ([{ pick := ⟨0, by decide⟩, request := none, sessions := 39 }] ++
          [{ pick := ⟨2, by decide⟩
             request := some { sleepMs := 120, roll := 1 / 2, elapsed := 3 / 25 }
             sessions := 0 }]))
      sessionsName [] = some (.gauge ((10 + 0 : ℕ) : ℚ)) ∧
    (10 : ℚ) ≤ ((10 + 0 : ℕ) : ℚ) ∧ ((10 + 0 : ℕ) : ℚ) ≤ 49 :=
  ⟨by decide, trafficTick_sets_gauge [.set sessionsName [] 49]
    [{ pick := ⟨0, by decide⟩, request := none, sessions := 39 }]
    { pick := ⟨2, by decide⟩
      request := some { sleepMs := 120, roll := 1 / 2, elapsed := 3 / 25 }
      sessions := 0 } (by decide)⟩

/-! ## Kinds of stored accumulators -/

theorem zeroAccumulator_kind (d : MetricDefinition) : (zeroAccumulator d).kind = d.kind := by
  unfold zeroAccumulator
  cases d.kind <;> rfl

theorem effect_kind (c : Call) (d : MetricDefinition) (a : Accumulator)
    (h : a.kind = c.kind) : (c.effect d a).kind = c.kind := by
  cases c <;> cases a <;> simp_all [Call.effect, Call.kind, Accumulator.kind, Accumulator.add,
    Accumulator.observe, Accumulator.set]

theorem wellKinded_initial : WellKinded initialState := by
  intro n k a h
  rw [readSeries_initial] at h
  cases h

theorem wellKinded_applyCall {r : Registry} (hr : WellKinded r) (c : Call) :
    WellKinded (applyCall r c).2 := by
  intro n k a h
  rw [defOf_applyCall]
  rcases applyCall_shape r c with h1 | ⟨m, hm, hk, _, h1⟩
  · rw [h1] at h
    exact hr n k a h
  · rw [h1, readSeries_storeSeries hm] at h
    by_cases hc : n = c.name ∧ k = c.labelValues
    · rw [if_pos hc] at h
      obtain ⟨rfl, rfl⟩ := hc
      cases h
      refine ⟨m.definition, by simp [defOf, hm], ?_⟩
      rw [hk]
      apply effect_kind
      rw [← hk, currentOf_eq hm]
      cases hread : readSeries r c.name c.labelValues with
      | none => exact zeroAccumulator_kind _
      | some a0 =>
        obtain ⟨d, hd, hkind⟩ := hr _ _ _ hread
        simp only [defOf, hm, Option.map_some', Option.some.injEq] at hd
        rw [Option.getD_some, hkind, hd]
    · rw [if_neg hc] at h
      exact hr n k a h

theorem wellKinded_execCalls {r : Registry} (hr : WellKinded r) (cs : List Call) :
    WellKinded (execCalls r cs) := by
  induction cs generalizing r with
  | nil => exact hr
  | cons c rest ih => exact ih (wellKinded_applyCall hr c)

theorem runCalls_eq_execCalls {r : Registry} {cs : List Call}
    (h : (runCalls r cs).1 = .ok ()) : (runCalls r cs).2 = execCalls r cs := by
  induction cs generalizing r with
  | nil => rfl
  | cons c rest ih =>
    rw [runCalls] at h ⊢
    simp only [execCalls]
    generalize applyCall r c = p at h ⊢
    obtain ⟨x, r1⟩ := p
    cases x with
    | error e => cases h
    | ok u => exact ih h

/-- Reads after a successful Recorder call. -/
theorem readSeries_applyCall_ok {r : Registry} {c : Call} {d : MetricDefinition}
    (hd : defOf r c.name = some d) (hk : d.kind = c.kind)
    (ha : c.labelValues.length = d.labelNames.length) (hv : c.valid) (n : String)
    (k : SeriesKey) :
    readSeries (applyCall r c).2 n k =
      if n = c.name ∧ k = c.labelValues then
        some (c.effect d ((readSeries r c.name c.labelValues).getD (zeroAccumulator d)))
      else readSeries r n k := by
  cases c with
  | inc n0 k0 v => exact (incrementCounter_ok hd hk k0 ha v hv).2 n k
  | observe n0 k0 v => exact (observeHistogram_ok hd hk k0 ha v).2 n k
  | set n0 k0 v => exact (setGauge_ok hd hk k0 ha v).2 n k

theorem counter_of_kind {a : Accumulator} (h : a.kind = .Counter) : ∃ v, a = .counter v := by
  cases a with
  | counter v => exact ⟨v, rfl⟩
  | histogram _ _ _ _ => cases h
  | gauge _ => cases h

theorem histogram_of_kind {a : Accumulator} (h : a.kind = .Histogram) :
    ∃ cs inf sum count, a = .histogram cs inf sum count := by
  cases a with
  | counter v => cases h
  | histogram cs inf sum count => exact ⟨cs, inf, sum, count, rfl⟩
  | gauge _ => cases h

/-- Value of a counter series after its accumulator went through `add`. -/
theorem counterValue_after_add {r r1 : Registry} {n : String} {d : MetricDefinition}
    (hw : WellKinded r) (hd : defOf r n = some d) (hk : d.kind = .Counter) (k : SeriesKey)
    (delta : ℚ)
    (h : readSeries r1 n k = some (((readSeries r n k).getD (zeroAccumulator d)).add delta)) :
    counterValue r1 n k = counterValue r n k + delta := by
  unfold counterValue
  rw [h]
  cases hread : readSeries r n k with
  | none => simp [zeroAccumulator, hk, Accumulator.add]
  | some a =>
    obtain ⟨d1, hd1, hkind⟩ := hw _ _ _ hread
    rw [hd] at hd1
    cases hd1
    obtain ⟨v, rfl⟩ := counter_of_kind (hkind.trans hk)
    simp [Accumulator.add]

/-- Sample count of a histogram series after its accumulator went through
`observe`. -/
theorem histogramCount_after_observe {r r1 : Registry} {n : String} {d : MetricDefinition}
    (hw : WellKinded r) (hd : defOf r n = some d) (hk : d.kind = .Histogram) (k : SeriesKey)
    (v : ℚ)
    (h : readSeries r1 n k =
      some (((readSeries r n k).getD (zeroAccumulator d)).observe d.bucketBoundaries v)) :
    histogramCount r1 n k = histogramCount r n k + 1 := by
  unfold histogramCount
  rw [h]
  cases hread : readSeries r n k with
  | none => simp [zeroAccumulator, hk, Accumulator.observe]
  | some a =>
    obtain ⟨d1, hd1, hkind⟩ := hw _ _ _ hread
    rw [hd] at hd1
    cases hd1
    obtain ⟨cs, inf, sum, count, rfl⟩ := histogram_of_kind (hkind.trans hk)
    simp [Accumulator.observe]

/-! ## Effect of one handled request -/

theorem names_distinct :
    durationName ≠ requestsName ∧ durationName ≠ errorsName ∧ requestsName ≠ errorsName := by
  decide

theorem graphqlHandler_state {s : Registry} (hs : Declared s) (query : Option String)
    (d : Draws) : (graphqlHandler s query d).2 = execCalls s (handlerCalls query d) := by
  rw [graphqlHandler_snd]
  exact runCalls_eq_execCalls (runCalls_ok _ (handlerCalls_ok hs query d))

/-- Reads of the three handler metrics after one handled request, in terms of
the reads before it. -/
theorem graphqlHandler_reads {s : Registry} (hs : Declared s) (query : Option String)
    (d : Draws) :
    (∀ k, readSeries (graphqlHandler s query d).2 durationName k =
      if k = [operationLabel query] then
        some (((readSeries s durationName [operationLabel query]).getD
          (zeroAccumulator graphqlDuration)).observe graphqlDuration.bucketBoundaries d.elapsed)
      else readSeries s durationName k) ∧
    (∀ k, readSeries (graphqlHandler s query d).2 requestsName k =
      if k = [operationLabel query, if d.roll < 1 / 10 then "error" else "success"] then
        some (((readSeries s requestsName
          [operationLabel query, if d.roll < 1 / 10 then "error" else "success"]).getD
          (zeroAccumulator graphqlRequests)).add 1)
      else readSeries s requestsName k) ∧
    (∀ k, readSeries (graphqlHandler s query d).2 errorsName k =
      if d.roll < 1 / 10 ∧ k = [operationLabel query, "internal_error"] then
        some (((readSeries s errorsName [operationLabel query, "internal_error"]).getD
          (zeroAccumulator graphqlErrors)).add 1)
      else readSeries s errorsName k) := by
  obtain ⟨n1, n2, n3⟩ := names_distinct
  have n1s : requestsName ≠ durationName := fun e => n1 e.symm
  have n2s : errorsName ≠ durationName := fun e => n2 e.symm
  have n3s : errorsName ≠ requestsName := fun e => n3 e.symm
  obtain ⟨h1, h2, h3, _⟩ := hs
  rw [graphqlHandler_state ⟨h1, h2, h3, ‹_›⟩]
  have one : (0 : ℚ) ≤ 1 := by norm_num
  by_cases hroll : d.roll < 1 / 10
  · simp only [handlerCalls, hroll, if_true, execCalls, true_and]
    have e1 := fun n k => readSeries_applyCall_ok
      (c := Call.observe durationName [operationLabel query] d.elapsed) (r := s)
      h2 rfl rfl trivial n k
    have d2 : defOf (applyCall s (Call.observe durationName [operationLabel query]
        d.elapsed)).2 requestsName = some graphqlRequests := by
      rw [defOf_applyCall]; exact h1
    have e2 := fun n k => readSeries_applyCall_ok
      (c := Call.inc requestsName [operationLabel query, "error"] 1)
      d2 rfl rfl one n k
    have d3 : defOf (applyCall (applyCall s (Call.observe durationName [operationLabel query]
        d.elapsed)).2 (Call.inc requestsName [operationLabel query, "error"] 1)).2
        errorsName = some graphqlErrors := by
      rw [defOf_applyCall, defOf_applyCall]; exact h3
    have e3 := fun n k => readSeries_applyCall_ok
      (c := Call.inc errorsName [operationLabel query, "internal_error"] 1)
      d3 rfl rfl one n k
    simp only [Call.name, Call.labelValues, Call.effect] at e1 e2 e3
    refine ⟨fun k => ?_, fun k => ?_, fun k => ?_⟩
    · simp [e1, e2, e3, n1, n2]
    · simp [e1, e2, e3, n1s, n3]
    · simp [e1, e2, e3, n2s, n3s]
  · simp only [handlerCalls, hroll, if_false, execCalls, false_and]
    have e1 := fun n k => readSeries_applyCall_ok
      (c := Call.observe durationName [operationLabel query] d.elapsed) (r := s)
      h2 rfl rfl trivial n k
    have d2 : defOf (applyCall s (Call.observe durationName [operationLabel query]
        d.elapsed)).2 requestsName = some graphqlRequests := by
      rw [defOf_applyCall]; exact h1
    have e2 := fun n k => readSeries_applyCall_ok
      (c := Call.inc requestsName [operationLabel query, "success"] 1)
      d2 rfl rfl one n k
    simp only [Call.name, Call.labelValues, Call.effect] at e1 e2
    refine ⟨fun k => ?_, fun k => ?_, fun k => ?_⟩
    · simp [e1, e2, n1]
    · simp [e1, e2, n1s]
    · simp [e1, e2, n2s, n3s]

theorem declared_graphqlHandler {s : Registry} (hs : Declared s) (query : Option String)
    (d : Draws) : Declared (graphqlHandler s query d).2 := by
  simp only [Declared, graphqlHandler_snd, defOf_runCalls]
  exact hs

theorem wellKinded_graphqlHandler {s : Registry} (hs : Declared s) (hw : WellKinded s)
    (query : Option String) (d : Draws) : WellKinded (graphqlHandler s query d).2 := by
  rw [graphqlHandler_state hs]
  exact wellKinded_execCalls hw _

/-- One handled request adds one sample to the duration series of its
operation and to no other. -/
theorem histogramCount_graphqlHandler {s : Registry} (hs : Declared s) (hw : WellKinded s)
    (query : Option String) (d : Draws) (key : SeriesKey) :
    histogramCount (graphqlHandler s query d).2 durationName key =
      histogramCount s durationName key + if key = [operationLabel query] then 1 else 0 := by
  have h := (graphqlHandler_reads hs query d).1 key
  by_cases hk : key = [operationLabel query]
  · subst hk
    rw [if_pos rfl] at h ⊢
    exact histogramCount_after_observe hw hs.2.1 rfl _ _ h
  · rw [if_neg hk] at h ⊢
    unfold histogramCount
    rw [h, add_zero]

/-- One handled request adds one to the requests series of its operation and
status and to no other. -/
theorem requests_graphqlHandler {s : Registry} (hs : Declared s) (hw : WellKinded s)
    (query : Option String) (d : Draws) (key : SeriesKey) :
    counterValue (graphqlHandler s query d).2 requestsName key =
      counterValue s requestsName key +
        if key = [operationLabel query, if d.roll < 1 / 10 then "error" else "success"]
        then 1 else 0 := by
  have h := (graphqlHandler_reads hs query d).2.1 key
  by_cases hk : key = [operationLabel query, if d.roll < 1 / 10 then "error" else "success"]
  · rw [if_pos hk] at h ⊢
    rw [hk] at h ⊢
    exact counterValue_after_add hw hs.1 rfl _ _ h
  · rw [if_neg hk] at h ⊢
    unfold counterValue
    rw [h, add_zero]

/-- One handled request adds one to the errors series of its operation when it
fails, and nothing otherwise. -/
theorem errors_graphqlHandler {s : Registry} (hs : Declared s) (hw : WellKinded s)
    (query : Option String) (d : Draws) (key : SeriesKey) :
    counterValue (graphqlHandler s query d).2 errorsName key =
      counterValue s errorsName key +
        if d.roll < 1 / 10 ∧ key = [operationLabel query, "internal_error"] then 1 else 0 := by
  have h := (graphqlHandler_reads hs query d).2.2 key
  by_cases hk : d.roll < 1 / 10 ∧ key = [operationLabel query, "internal_error"]
  · rw [if_pos hk] at h ⊢
    rw [hk.2] at h ⊢
    exact counterValue_after_add hw hs.2.2.1 rfl _ _ h
  · rw [if_neg hk] at h ⊢
    unfold counterValue
    rw [h, add_zero]

theorem handlerInv_initial : HandlerInv initialState := by
  refine ⟨declared_initial, wellKinded_initial, ?_, ?_, ?_, ?_⟩
  · intro op
    simp [histogramCount, counterValue, readSeries_initial]
  · intro key h
    exact absurd (readSeries_initial _ _) h
  · intro op
    simp [counterValue, readSeries_initial]
  · intro key h
    exact absurd (readSeries_initial _ _) h

theorem handlerInv_graphqlHandler {s : Registry} (h : HandlerInv s) (query : Option String)
    (d : Draws) : HandlerInv (graphqlHandler s query d).2 := by
  obtain ⟨hs, hw, b8, c8, b9, c9⟩ := h
  refine ⟨declared_graphqlHandler hs query d, wellKinded_graphqlHandler hs hw query d,
    ?_, ?_, ?_, ?_⟩
  · intro op
    rw [histogramCount_graphqlHandler hs hw, requests_graphqlHandler hs hw,
      requests_graphqlHandler hs hw]
    push_cast
    rw [b8 op]
    by_cases hroll : d.roll < 1 / 10 <;> simp only [hroll, if_true, if_false, true_and,
      false_and] <;> by_cases hop : op = operationLabel query <;> simp [hop] <;> ring
  · intro key hkey
    rw [(graphqlHandler_reads hs query d).2.1 key] at hkey
    by_cases hk : key = [operationLabel query, if d.roll < 1 / 10 then "error" else "success"]
    · refine ⟨operationLabel query, ?_⟩
      rw [hk]
      by_cases hroll : d.roll < 1 / 10
      · right; simp only [hroll, if_true]
      · left; simp only [hroll, if_false]
    · rw [if_neg hk] at hkey
      exact c8 key hkey
  · intro op
    rw [errors_graphqlHandler hs hw, requests_graphqlHandler hs hw, b9 op]
    by_cases hroll : d.roll < 1 / 10 <;> simp only [hroll, if_true, if_false, true_and,
      false_and] <;> by_cases hop : op = operationLabel query <;> simp [hop]
  · intro key hkey
    rw [(graphqlHandler_reads hs query d).2.2 key] at hkey
    by_cases hk : d.roll < 1 / 10 ∧ key = [operationLabel query, "internal_error"]
    · exact ⟨operationLabel query, hk.2⟩
    · rw [if_neg hk] at hkey
      exact c9 key hkey

theorem handlerInv_handleAll {s : Registry} (h : HandlerInv s)
    (reqs : List (Option String × Draws)) : HandlerInv (handleAll s reqs) := by
  induction reqs generalizing s with
  | nil => exact h
  | cons x rest ih =>
    obtain ⟨q, d⟩ := x
    exact ih (handlerInv_graphqlHandler h q d)

/-! ## Claims on handled requests -/

/-- C8: in every state reached by handled requests, one more invocation of
`graphqlHandler` completes, adds exactly one sample to the duration series of
its operation and to no other, and adds exactly one to the requests series of
its operation with status "error" or "success" and to no other; hence for every
operation the histogram sample count equals the sum of the two requests
counters, and no requests series with another status exists. -/
theorem handler_records_each_request (reqs : List (Option String × Draws))
    (query : Option String) (d : Draws) :
    (∃ resp, (graphqlHandler (handleAll initialState reqs) query d).1 = .ok resp) ∧
    (∀ key, histogramCount (graphqlHandler (handleAll initialState reqs) query d).2
        durationName key =
      histogramCount (handleAll initialState reqs) durationName key +
        if key = [operationLabel query] then 1 else 0) ∧
    (∀ key, counterValue (graphqlHandler (handleAll initialState reqs) query d).2
        requestsName key =
      counterValue (handleAll initialState reqs) requestsName key +
        if key = [operationLabel query, if d.roll < 1 / 10 then "error" else "success"]
        then 1 else 0) ∧
    (∀ op, (histogramCount (handleAll initialState reqs) durationName [op] : ℚ) =
      counterValue (handleAll initialState reqs) requestsName [op, "success"] +
        counterValue (handleAll initialState reqs) requestsName [op, "error"]) ∧
    (∀ key, readSeries (handleAll initialState reqs) requestsName key ≠ none →
      ∃ op, key = [op, "success"] ∨ key = [op, "error"]) := by
  obtain ⟨hs, hw, b8, c8, _, _⟩ := handlerInv_handleAll handlerInv_initial reqs
  refine ⟨⟨_, graphqlHandler_fst_ok (runCalls_ok _ (handlerCalls_ok hs query d))⟩, ?_, ?_,
    b8, c8⟩
  · exact fun key => histogramCount_graphqlHandler hs hw query d key
  · exact fun key => requests_graphqlHandler hs hw query d key

/-- C9: in every state reached by handled requests, a failing request (draw
below 0.1) is answered as an internal server error, counted once under status
"error" and once in the errors counter under error type "internal_error", and
a successful request leaves every errors series as it was; hence for every
operation the errors counter equals the requests counter of status "error",
and no errors series with another error type exists. -/
theorem handler_counts_errors (reqs : List (Option String × Draws))
    (query : Option String) (d : Draws) :
    (d.roll < 1 / 10 →
      (graphqlHandler (handleAll initialState reqs) query d).1 = .ok .internalServerError ∧
      counterValue (graphqlHandler (handleAll initialState reqs) query d).2 requestsName
          [operationLabel query, "error"] =
        counterValue (handleAll initialState reqs) requestsName
          [operationLabel query, "error"] + 1) ∧
    (∀ key, counterValue (graphqlHandler (handleAll initialState reqs) query d).2
        errorsName key =
      counterValue (handleAll initialState reqs) errorsName key +
        if d.roll < 1 / 10 ∧ key = [operationLabel query, "internal_error"] then 1 else 0) ∧
    (¬ d.roll < 1 / 10 →
      ∀ key, readSeries (graphqlHandler (handleAll initialState reqs) query d).2 errorsName key =
        readSeries (handleAll initialState reqs) errorsName key) ∧
    (∀ op, counterValue (handleAll initialState reqs) errorsName [op, "internal_error"] =
      counterValue (handleAll initialState reqs) requestsName [op, "error"]) ∧
    (∀ key, readSeries (handleAll initialState reqs) errorsName key ≠ none →
      ∃ op, key = [op, "internal_error"]) := by
  obtain ⟨hs, hw, _, _, b9, c9⟩ := handlerInv_handleAll handlerInv_initial reqs
  refine ⟨?_, ?_, ?_, b9, c9⟩
  · intro hroll
    refine ⟨?_, ?_⟩
    · rw [graphqlHandler_fst_ok (runCalls_ok _ (handlerCalls_ok hs query d)), if_pos hroll]
    · rw [requests_graphqlHandler hs hw]
      simp only [hroll, if_true]
  · exact fun key => errors_graphqlHandler hs hw query d key
  · intro hroll key
    rw [(graphqlHandler_reads hs query d).2.2 key]
    simp only [hroll, false_and, if_false]

/-- C8 at a concrete request: a failing request for "getWorkflow" handled in
the initial state adds one sample and one "error" count, and no "success"
count. -/
theorem handler_records_each_request_witness :
    histogramCount
      (graphqlHandler initialState (some "getWorkflow")
        { sleepMs := 120, roll := 0, elapsed := 3 / 25 }).2 durationName ["getWorkflow"] = 1 ∧
    counterValue
      (graphqlHandler initialState (some "getWorkflow")
        { sleepMs := 120, roll := 0, elapsed := 3 / 25 }).2 requestsName
      ["getWorkflow", "error"] = 1 ∧
    counterValue
      (graphqlHandler initialState (some "getWorkflow")
        { sleepMs := 120, roll := 0, elapsed := 3 / 25 }).2 requestsName
      ["getWorkflow", "success"] = 0 := by
  obtain ⟨_, h1, h2, _, _⟩ := handler_records_each_request []
    (some "getWorkflow") { sleepMs := 120, roll := 0, elapsed := 3 / 25 }
  have hroll : (0 : ℚ) < 1 / 10 := by norm_num
  simp only [handleAll] at h1 h2
  refine ⟨?_, ?_, ?_⟩
  · rw [h1]
    simp [histogramCount, readSeries_initial, operationLabel, queryGet]
  · rw [h2]
    simp only [hroll, if_true]
    simp [counterValue, readSeries_initial, operationLabel, queryGet]
  · rw [h2]
    simp only [hroll, if_true]
    simp [counterValue, readSeries_initial, operationLabel, queryGet]

/-- C9 at concrete requests: in the initial state a failing request for
"getWorkflow" adds one "internal_error" count, and a successful one leaves the
errors series without any entry. -/
theorem handler_counts_errors_witness :
    counterValue
      (graphqlHandler initialState (some "getWorkflow")
        { sleepMs := 120, roll := 0, elapsed := 3 / 25 }).2 errorsName
      ["getWorkflow", "internal_error"] = 1 ∧
    (graphqlHandler initialState (some "getWorkflow")
      { sleepMs := 120, roll := 0, elapsed := 3 / 25 }).1 = .ok .internalServerError ∧
    readSeries
      (graphqlHandler initialState (some "getWorkflow")
        { sleepMs := 7, roll := 1 / 2, elapsed := 3 }).2 errorsName
      ["getWorkflow", "internal_error"] = none := by
  obtain ⟨g1, g2, _, _, _⟩ := handler_counts_errors []
    (some "getWorkflow") { sleepMs := 120, roll := 0, elapsed := 3 / 25 }
  obtain ⟨_, _, g3, _, _⟩ := handler_counts_errors []
    (some "getWorkflow") { sleepMs := 7, roll := 1 / 2, elapsed := 3 }
  have hroll : (0 : ℚ) < 1 / 10 := by norm_num
  have hroll2 : ¬ (1 / 2 : ℚ) < 1 / 10 := by norm_num
  simp only [handleAll] at g1 g2 g3
  refine ⟨?_, (g1 hroll).1, ?_⟩
  · rw [g2]
    simp only [hroll, true_and]
    simp [counterValue, readSeries_initial, operationLabel, queryGet]
  · rw [g3 hroll2, readSeries_initial]

/-! ## Counters -/

theorem deltasTo_perm (name : String) (key : SeriesKey)
    {xs ys : List (String × SeriesKey × ℚ)} (h : xs.Perm ys) :
    (deltasTo name key xs).Perm (deltasTo name key ys) :=
  (h.filter _).map _

theorem runCalls_incrementAll {r : Registry} (fresh : String → Prop)
    (ws incs : List (String × SeriesKey × ℚ))
    (hinv : ∀ n key, fresh n → readSeries r n key =
      if deltasTo n key ws = [] then none else some (.counter (deltasTo n key ws).sum))
    (hv : ∀ i ∈ incs, fresh i.1 ∧ ∃ d, defOf r i.1 = some d ∧ d.kind = .Counter ∧
      i.2.1.length = d.labelNames.length ∧ 0 ≤ i.2.2) :
    (runCalls r (incrementAll incs)).1 = .ok () ∧
      ∀ n key, fresh n → readSeries (runCalls r (incrementAll incs)).2 n key =
        if deltasTo n key (ws ++ incs) = [] then none
        else some (.counter (deltasTo n key (ws ++ incs)).sum) := by
  induction incs generalizing r ws with
  | nil => simpa [incrementAll, runCalls] using hinv
  | cons i rest ih =>
    obtain ⟨n0, k, delta⟩ := i
    obtain ⟨hf, d, hd, hk, ha, h0⟩ := hv (n0, k, delta) (List.mem_cons_self _ _)
    simp only at hf hd ha h0
    obtain ⟨h1, h2⟩ := incrementCounter_ok hd hk k ha delta h0
    have hstep : runCalls r (incrementAll ((n0, k, delta) :: rest)) =
        runCalls (incrementCounter r n0 k delta).2 (incrementAll rest) :=
      runCalls_cons_ok (c := Call.inc n0 k delta) _ h1
    have hinv1 : ∀ n key, fresh n → readSeries (incrementCounter r n0 k delta).2 n key =
        if deltasTo n key (ws ++ [(n0, k, delta)]) = [] then none
        else some (.counter (deltasTo n key (ws ++ [(n0, k, delta)])).sum) := by
      intro n key hn
      rw [h2]
      by_cases hkey : n = n0 ∧ key = k
      · obtain ⟨rfl, rfl⟩ := hkey
        rw [if_pos ⟨rfl, rfl⟩, hinv n key hn]
        have hne : deltasTo n key (ws ++ [(n, key, delta)]) = deltasTo n key ws ++ [delta] := by
          simp [deltasTo]
        have hnn : ¬ deltasTo n key ws ++ [delta] = [] := by simp
        rw [hne, if_neg hnn]
        by_cases hws : deltasTo n key ws = []
        · simp [hws, zeroAccumulator, hk, Accumulator.add]
        · simp [hws, Accumulator.add]
      · have hne : deltasTo n key (ws ++ [(n0, k, delta)]) = deltasTo n key ws := by
          have hkey1 : ¬ (n0 = n ∧ k = key) := fun e => hkey ⟨e.1.symm, e.2.symm⟩
          simp [deltasTo, hkey1]
        rw [if_neg hkey, hne]
        exact hinv n key hn
    rw [hstep]
    have hrest := ih (ws ++ [(n0, k, delta)]) hinv1
      (fun j hj => by
        obtain ⟨g1, d1, g2, g3⟩ := hv j (List.mem_cons_of_mem _ hj)
        refine ⟨g1, d1, ?_, g3⟩
        rw [← g2]
        exact defOf_applyCall r (Call.inc n0 k delta) j.1)
    simpa using hrest

/-- C2: when every increment of a sequence addresses a counter registered
without series, with label values of the declared arity and a non-negative
delta, every call succeeds and afterwards each series (metric, ordered label
values) of such a counter holds the sum of the deltas addressed to exactly that
series, a series nobody addressed does not exist, and every reordering of the
sequence ends with the same value in every such series. -/
theorem counter_sums_deltas (r0 : Registry) (incs incs2 : List (String × SeriesKey × ℚ))
    (hv : ∀ i ∈ incs, ∃ d, findMetric r0 i.1 = some { definition := d, series := [] } ∧
      d.kind = .Counter ∧ i.2.1.length = d.labelNames.length ∧ 0 ≤ i.2.2)
    (hp : incs2.Perm incs) :
    (runCalls r0 (incrementAll incs)).1 = .ok () ∧
    (∀ name key d, findMetric r0 name = some { definition := d, series := [] } →
      readSeries (runCalls r0 (incrementAll incs)).2 name key =
        if deltasTo name key incs = [] then none
        else some (.counter (deltasTo name key incs).sum)) ∧
    (runCalls r0 (incrementAll incs2)).1 = .ok () ∧
    (∀ name key d, findMetric r0 name = some { definition := d, series := [] } →
      readSeries (runCalls r0 (incrementAll incs2)).2 name key =
        readSeries (runCalls r0 (incrementAll incs)).2 name key) := by
  have hinv : ∀ n key, (∃ d, findMetric r0 n = some { definition := d, series := [] }) →
      readSeries r0 n key =
        if deltasTo n key ([] : List (String × SeriesKey × ℚ)) = [] then none
        else some (.counter (deltasTo n key ([] : List (String × SeriesKey × ℚ))).sum) := by
    intro n key ⟨d, hm⟩
    simp [readSeries, hm, seriesGet, deltasTo]
  have hv1 : ∀ i ∈ incs, (∃ d, findMetric r0 i.1 = some { definition := d, series := [] }) ∧
      ∃ d, defOf r0 i.1 = some d ∧ d.kind = .Counter ∧
        i.2.1.length = d.labelNames.length ∧ 0 ≤ i.2.2 := by
    intro i hi
    obtain ⟨d, hm, rest⟩ := hv i hi
    exact ⟨⟨d, hm⟩, d, by simp [defOf, hm], rest⟩
  have hv2 : ∀ i ∈ incs2, (∃ d, findMetric r0 i.1 = some { definition := d, series := [] }) ∧
      ∃ d, defOf r0 i.1 = some d ∧ d.kind = .Counter ∧
        i.2.1.length = d.labelNames.length ∧ 0 ≤ i.2.2 :=
    fun i hi => hv1 i (hp.mem_iff.mp hi)
  obtain ⟨a1, a2⟩ := runCalls_incrementAll _ [] incs hinv hv1
  obtain ⟨b1, b2⟩ := runCalls_incrementAll _ [] incs2 hinv hv2
  refine ⟨a1, fun name key d hm => a2 name key ⟨d, hm⟩, b1, ?_⟩
  intro name key d hm
  rw [a2 name key ⟨d, hm⟩, b2 name key ⟨d, hm⟩]
  simp only [List.nil_append]
  have hperm := deltasTo_perm name key hp
  by_cases h : deltasTo name key incs = []
  · have h2 : deltasTo name key incs2 = [] := by
      rw [h] at hperm
      exact hperm.eq_nil
    rw [if_pos h, if_pos h2]
  · have h2 : ¬ deltasTo name key incs2 = [] := by
      intro e
      rw [e] at hperm
      exact h hperm.symm.eq_nil
    rw [if_neg h, if_neg h2, hperm.sum_eq]

/-- C2 at the example: three increments for "listX" and one for "getY", in two
different orders, give listX = 3 and getY = 1. -/
theorem counter_sums_deltas_witness :
    register [] requestsTotalExample = .ok [{ definition := requestsTotalExample, series := [] }] ∧
    readSeries
      (runCalls [{ definition := requestsTotalExample, series := [] }]
        (incrementAll
          [("requests_total", ["listX"], 1), ("requests_total", ["getY"], 1),
            ("requests_total", ["listX"], 1), ("requests_total", ["listX"], 1)])).2
      "requests_total" ["listX"] = some (.counter 3) ∧
    readSeries
      (runCalls [{ definition := requestsTotalExample, series := [] }]
        (incrementAll
          [("requests_total", ["listX"], 1), ("requests_total", ["getY"], 1),
            ("requests_total", ["listX"], 1), ("requests_total", ["listX"], 1)])).2
      "requests_total" ["getY"] = some (.counter 1) ∧
    readSeries
      (runCalls [{ definition := requestsTotalExample, series := [] }]
        (incrementAll
          [("requests_total", ["getY"], 1), ("requests_total", ["listX"], 1),
            ("requests_total", ["listX"], 1), ("requests_total", ["listX"], 1)])).2
      "requests_total" ["listX"] = some (.counter 3) := by
  have h := counter_sums_deltas [{ definition := requestsTotalExample, series := [] }]
    [("requests_total", ["listX"], 1), ("requests_total", ["getY"], 1),
      ("requests_total", ["listX"], 1), ("requests_total", ["listX"], 1)]
    [("requests_total", ["getY"], 1), ("requests_total", ["listX"], 1),
      ("requests_total", ["listX"], 1), ("requests_total", ["listX"], 1)]
    (by
      intro i hi
      simp only [List.mem_cons, List.mem_singleton, List.not_mem_nil, or_false] at hi
      rcases hi with rfl | rfl | rfl | rfl <;>
        exact ⟨requestsTotalExample, rfl, rfl, rfl, by norm_num⟩)
    (List.Perm.swap _ _ _)
  obtain ⟨_, h2, _, h4⟩ := h
  refine ⟨rfl, ?_, ?_, ?_⟩
  · rw [h2 "requests_total" ["listX"] requestsTotalExample rfl]
    simp [deltasTo, List.filter]
    norm_num
  · rw [h2 "requests_total" ["getY"] requestsTotalExample rfl]
    simp [deltasTo, List.filter]
  · rw [h4 "requests_total" ["listX"] requestsTotalExample rfl,
      h2 "requests_total" ["listX"] requestsTotalExample rfl]
    simp [deltasTo, List.filter]
    norm_num

/-! ## The exporter -/

theorem seriesPut_keys (ss : List (SeriesKey × Accumulator)) (k : SeriesKey) (a : Accumulator) :
    (seriesPut ss k a).map (fun e => e.1) =
      if k ∈ ss.map (fun e => e.1) then ss.map (fun e => e.1)
      else ss.map (fun e => e.1) ++ [k] := by
  induction ss with
  | nil => simp [seriesPut]
  | cons e rest ih =>
    obtain ⟨k0, a0⟩ := e
    by_cases h0 : k0 = k
    · subst h0
      have hmem : k0 ∈ ((k0, a0) :: rest).map (fun e => e.1) := List.mem_cons_self _ _
      rw [if_pos hmem]
      simp only [seriesPut, if_true, List.map_cons]
    · have h1 : ¬ k = k0 := fun e => h0 e.symm
      by_cases hmem : k ∈ rest.map (fun e => e.1)
      · rw [if_pos hmem] at ih
        have hmem1 : k ∈ ((k0, a0) :: rest).map (fun e => e.1) :=
          List.mem_cons_of_mem _ hmem
        rw [if_pos hmem1]
        simp only [seriesPut, h0, if_false, List.map_cons, ih]
      · rw [if_neg hmem] at ih
        have hmem1 : ¬ k ∈ ((k0, a0) :: rest).map (fun e => e.1) := by
          intro h
          rcases List.mem_cons.mp h with h2 | h2
          · exact h1 h2
          · exact hmem h2
        rw [if_neg hmem1]
        simp only [seriesPut, h0, if_false, List.map_cons, ih, List.cons_append]

theorem seriesPut_nodup {ss : List (SeriesKey × Accumulator)}
    (h : (ss.map (fun e => e.1)).Nodup) (k : SeriesKey) (a : Accumulator) :
    ((seriesPut ss k a).map (fun e => e.1)).Nodup := by
  rw [seriesPut_keys]
  split_ifs with hk
  · exact h
  · exact List.Nodup.append h (List.nodup_singleton k) (by
      intro x hx hx1
      rw [List.mem_singleton] at hx1
      exact hk (hx1 ▸ hx))

theorem findMetric_mem {r : Registry} {n : String} {m : Metric}
    (h : findMetric r n = some m) : m ∈ r := by
  induction r with
  | nil => simp [findMetric] at h
  | cons m0 rest ih =>
    unfold findMetric at h
    split at h
    · cases h
      exact List.mem_cons_self _ _
    · exact List.mem_cons_of_mem _ (ih h)

theorem mem_replaceMetric {r : Registry} {m m1 : Metric} (h : m1 ∈ replaceMetric r m) :
    m1 ∈ r ∨ m1 = m := by
  induction r with
  | nil => simp [replaceMetric] at h
  | cons m0 rest ih =>
    unfold replaceMetric at h
    split at h
    · rcases List.mem_cons.mp h with h1 | h1
      · exact Or.inr h1
      · exact Or.inl (List.mem_cons_of_mem _ h1)
    · rcases List.mem_cons.mp h with h1 | h1
      · exact Or.inl (h1 ▸ List.mem_cons_self _ _)
      · rcases ih h1 with h2 | h2
        · exact Or.inl (List.mem_cons_of_mem _ h2)
        · exact Or.inr h2

theorem keysDistinct_initial : KeysDistinct initialState := by
  intro m hm
  simp only [initialState, List.mem_map] at hm
  obtain ⟨d, _, rfl⟩ := hm
  exact List.nodup_nil

theorem keysDistinct_applyCall {r : Registry} (hr : KeysDistinct r) (c : Call) :
    KeysDistinct (applyCall r c).2 := by
  rcases applyCall_shape r c with h | ⟨m, hm, _, _, h⟩
  · rw [h]
    exact hr
  · rw [h]
    intro m1 hm1
    rcases mem_replaceMetric hm1 with h1 | h1
    · exact hr m1 h1
    · rw [h1]
      exact seriesPut_nodup (hr m (findMetric_mem hm)) _ _

theorem keysDistinct_execCalls {r : Registry} (hr : KeysDistinct r) (cs : List Call) :
    KeysDistinct (execCalls r cs) := by
  induction cs generalizing r with
  | nil => exact hr
  | cons c rest ih => exact ih (keysDistinct_applyCall hr c)

/-- The export order of a store does not depend on the order in which the store
hands out its series, because no two series share a key. -/
theorem orderSeries_enumeration {ss l1 l2 : List (SeriesKey × Accumulator)}
    (hn : (ss.map (fun e => e.1)).Nodup) (h1 : l1.Perm ss) (h2 : l2.Perm ss) :
    orderSeries l1 = orderSeries l2 := by
  haveI : IsTotal (SeriesKey × Accumulator) (fun a b => a.1 ≤ b.1) :=
    ⟨fun a b => le_total a.1 b.1⟩
  haveI : IsTrans (SeriesKey × Accumulator) (fun a b => a.1 ≤ b.1) :=
    ⟨fun _ _ _ hab hbc => le_trans hab hbc⟩
  have p1 : (orderSeries l1).Perm ss := (List.perm_insertionSort _ l1).trans h1
  have p2 : (orderSeries l2).Perm ss := (List.perm_insertionSort _ l2).trans h2
  have s1 : (orderSeries l1).Pairwise (fun a b => a.1 ≤ b.1) :=
    List.sorted_insertionSort (fun a b : SeriesKey × Accumulator => a.1 ≤ b.1) l1
  have s2 : (orderSeries l2).Pairwise (fun a b => a.1 ≤ b.1) :=
    List.sorted_insertionSort (fun a b : SeriesKey × Accumulator => a.1 ≤ b.1) l2
  refine List.Perm.eq_of_sorted ?_ s1 s2 (p1.trans p2.symm)
  intro a b ha hb hab hba
  have hkey : a.1 = b.1 := le_antisymm hab hba
  have ha1 : a ∈ ss := p1.mem_iff.mp ha
  have hb1 : b ∈ ss := p2.mem_iff.mp hb
  exact List.inj_on_of_nodup_map hn ha1 hb1 hkey

theorem snapshotVia_enumeration {r : Registry} (hr : KeysDistinct r)
    (e1 e2 : Metric → List (SeriesKey × Accumulator))
    (h1 : ∀ m, (e1 m).Perm m.series) (h2 : ∀ m, (e2 m).Perm m.series) :
    (snapshotVia e1 r).1 = (snapshotVia e2 r).1 := by
  have hmap : r.map (fun m => renderMetric m.definition (e1 m)) =
      r.map (fun m => renderMetric m.definition (e2 m)) := by
    apply List.map_congr_left
    intro m hm
    simp only [renderMetric]
    rw [orderSeries_enumeration (hr m hm) (h1 m) (h2 m)]
  simp only [snapshotVia, hmap]

/-- C6: in every state reachable from the initial one by Recorder calls, a
snapshot leaves the registry as it was, so that every series reads as before
(none created, no counter reset), and a second snapshot taken right after the
first gives the same text, whatever the order in which each of the two scrapes
reads the series out of the stores. -/
theorem snapshot_deterministic_read_only (cs : List Call)
    (e1 e2 : Metric → List (SeriesKey × Accumulator))
    (h1 : ∀ m, (e1 m).Perm m.series) (h2 : ∀ m, (e2 m).Perm m.series) :
    (snapshotVia e2 (snapshotVia e1 (execCalls initialState cs)).2).1 =
      (snapshotVia e1 (execCalls initialState cs)).1 ∧
    (snapshotVia e1 (execCalls initialState cs)).2 = execCalls initialState cs ∧
    (∀ n k, readSeries (snapshotVia e1 (execCalls initialState cs)).2 n k =
      readSeries (execCalls initialState cs) n k) ∧
    (snapshot (snapshot (execCalls initialState cs)).2).1 =
      (snapshot (execCalls initialState cs)).1 ∧
    (snapshotVia e1 (execCalls initialState cs)).1 = (snapshot (execCalls initialState cs)).1 := by
  have hk := keysDistinct_execCalls keysDistinct_initial cs
  refine ⟨?_, rfl, fun _ _ => rfl, rfl, ?_⟩
  · exact snapshotVia_enumeration hk e2 e1 h2 h1
  · exact snapshotVia_enumeration hk e1 _ h1 (fun m => List.Perm.refl _)
/-- C6 at a concrete state: the requests counter holds two series, created
"listWorkflows" first; one scrape reads the stores in order of creation and the
other in the reverse order, and the two texts are the same. -/
theorem snapshot_deterministic_read_only_witness :
    findMetric
        (execCalls initialState
          [.inc requestsName ["listWorkflows", "success"] 1,
            .inc requestsName ["getWorkflow", "success"] 1]) requestsName =
      some { definition := graphqlRequests
             series := [(["listWorkflows", "success"], .counter 1),
               (["getWorkflow", "success"], .counter 1)] } ∧
    [(["listWorkflows", "success"], Accumulator.counter 1),
        (["getWorkflow", "success"], Accumulator.counter 1)].reverse =
      [(["getWorkflow", "success"], Accumulator.counter 1),
        (["listWorkflows", "success"], Accumulator.counter 1)] ∧
    (snapshotVia (fun m => m.series.reverse)
        (snapshotVia (fun m => m.series)
          (execCalls initialState
            [.inc requestsName ["listWorkflows", "success"] 1,
              .inc requestsName ["getWorkflow", "success"] 1])).2).1 =
      (snapshotVia (fun m => m.series)
        (execCalls initialState
          [.inc requestsName ["listWorkflows", "success"] 1,
            .inc requestsName ["getWorkflow", "success"] 1])).1 := by
  refine ⟨?_, rfl, ?_⟩
  · simp [execCalls, applyCall, incrementCounter, initialState, declaredMetrics, findMetric,
      graphqlRequests, graphqlDuration, graphqlErrors, activeSessions, requestsName,
      durationName, errorsName, sessionsName, getOrCreate, seriesGet, seriesPut,
      zeroAccumulator, storeSeries, replaceMetric, Accumulator.add]
  · exact (snapshot_deterministic_read_only
      [.inc requestsName ["listWorkflows", "success"] 1,
        .inc requestsName ["getWorkflow", "success"] 1]
      (fun m => m.series) (fun m => m.series.reverse)
      (fun m => List.Perm.refl _) (fun m => List.reverse_perm _)).1

end GraphqlMetrics
